import Mathlib

/-!
Verification of the Parace multiplayer racing server backend.

The development shallowly embeds the four backend modules
(`world_generator.py`, `game_state.py`, `player.py`, `app.py`) into Lean.

Modelling conventions:
* Python floats are modelled by an arbitrary linear ordered field (the
  theorems instantiate it with the rationals, or with the reals where a
  genuine square root is needed).  Arithmetic is exact; decimal literals
  of the source such as `0.5`, `0.2`, `0.02` become the exact rationals
  `1/2`, `1/5`, `1/50`.
* External library functions are pure and deterministic, so they are
  modelled as explicit function parameters: `noise.pnoise2` becomes a
  parameter `noise : NoiseArgs w -> w` taking the full argument tuple of the
  call site, `math.sqrt` becomes `sq : w -> w`, `math.cos`/`math.sin`/`math.pi`
  become `fcos`/`fsin`/`fpi`, and Python's builtin `hash` on an integer pair
  becomes `hash2 : Int -> Int -> Int` (all of these are deterministic in a
  fixed interpreter).
* `random.Random(s)` is a deterministic pseudo-random stream determined by
  its seed `s`.  It is modelled by a seed plus a draw counter (`RState`)
  over an abstract stream of raw naturals `stream : Int -> Nat -> Nat`; the
  derived operations `random`, `randint` and `choice` reproduce the ranges
  guaranteed by the Python API.
* Python dicts become association lists (`List (key, value)`), whose keys
  are unique in every reachable state; `del` becomes a key filter and
  iteration order is insertion order, as in CPython.
-/

/-- A 3-component vector, as used for positions, rotations and velocities. -/
structure Vec3 (w : Type) where
  x : w
  y : w
  z : w
  deriving DecidableEq, Repr

/-- A road point, the dict `{"x": ..., "z": ...}` of `world_generator.py`. -/
structure P2 (w : Type) where
  x : w
  z : w
  deriving DecidableEq, Repr

/-- The full argument tuple of a `noise.pnoise2` call site. -/
structure NoiseArgs (w : Type) where
  nx : w
  nz : w
  octaves : Nat
  persistence : w
  lacunarity : w
  repeatx : Nat
  repeaty : Nat
  base : Int
  deriving DecidableEq, Repr

/-- State of one `random.Random(seed)` instance: its seed and how many
draws have been made.  The abstract stream maps (seed, draw index) to a raw
natural number. -/
structure RState where
  rseed : Int
  idx : Nat
  deriving DecidableEq, Repr

variable {w : Type} [LinearOrderedField w]

/-- Model of `rng.random()`: a value in `[0, 1)` (Python produces `k / 2^53`
with `k < 2^53`), advancing the draw counter. -/
def rand_random (stream : Int → Nat → Nat) (st : RState) : w × RState :=
  (((stream st.rseed st.idx % 2 ^ 53 : Nat) : w) / 2 ^ 53, ⟨st.rseed, st.idx + 1⟩)

/-- Model of `rng.randint(a, b)`: a value in `[a, b]`, advancing the draw
counter. -/
def rand_randint (stream : Int → Nat → Nat) (st : RState) (a b : Nat) :
    Nat × RState :=
  (a + stream st.rseed st.idx % (b - a + 1), ⟨st.rseed, st.idx + 1⟩)

/-- Model of `rng.choice(l)`: an element of `l`, advancing the draw
counter. -/
def rand_choice (stream : Int → Nat → Nat) (st : RState) (l : List String) :
    String × RState :=
  (l.getD (stream st.rseed st.idx % l.length) "", ⟨st.rseed, st.idx + 1⟩)

/-- `WorldGenerator._point_to_line_distance` (world_generator.py lines
406-435): shortest distance from `(x, z)` to the segment
`(x1, z1) - (x2, z2)`, with the zero-length-segment guard. -/
def point_to_line_distance (sq : w → w) (x z x1 z1 x2 z2 : w) : w :=
  let A := x2 - x1
  let B := z2 - z1
  let C := x - x1
  let D := z - z1
  let dot := A * A + B * B
  if dot = 0 then sq (C * C + D * D)
  else
    let param := (A * C + B * D) / dot
    if param < 0 then sq (C * C + D * D)
    else if param > 1 then sq ((x - x2) ^ 2 + (z - z2) ^ 2)
    else
      let proj_x := x1 + param * A
      let proj_z := z1 + param * B
      sq ((x - proj_x) ^ 2 + (z - proj_z) ^ 2)

/-- `self.world_size` of `WorldGenerator.__init__`. -/
def world_size : Nat := 10000

/-- `self.chunk_size` of `WorldGenerator.__init__`. -/
def chunk_size : Nat := 500

/-- `self.terrain_scale = 0.02` of `WorldGenerator.__init__`, as the exact
rational `1/50`. -/
def terrain_scale [LinearOrderedField w] : w := 1 / 50

/-- `self.terrain_height = 100` of `WorldGenerator.__init__`. -/
def terrain_height_max : Nat := 100

/-- `self.road_width = 15` of `WorldGenerator.__init__`. -/
def road_width : Nat := 15

/-- The list of distances from `(x, z)` to every segment of every road:
the loop of `WorldGenerator._get_road_factor` (lines 374-380), where the
segments of a road are its consecutive point pairs. -/
def segment_distances (sq : w → w) (roads : List (List (P2 w))) (x z : w) :
    List w :=
  roads.flatMap fun road =>
    (road.zip road.tail).map fun pq =>
      point_to_line_distance sq x z pq.1.x pq.1.z pq.2.x pq.2.z

/-- `WorldGenerator._get_road_factor` (lines 366-388): `1` when the minimum
segment distance exceeds `road_width` (including the no-segment case, where
the source minimum stays at infinity), otherwise the blend factor
`min_distance / road_width`. -/
def get_road_factor (sq : w → w) (roads : List (List (P2 w))) (x z : w) : w :=
  match (segment_distances sq roads x z).min? with
  | none => 1
  | some min_distance =>
      if min_distance > (road_width : w) then 1
      else min_distance / (road_width : w)

/-- The argument tuple of the `noise.pnoise2` call in
`WorldGenerator.get_terrain_height` (line 54): scaled coordinates, 6
octaves, persistence `0.5`, lacunarity `2.0`, tiling period 1024, base
offset the world seed. -/
def terrain_noise_args [LinearOrderedField w] (x z : w) (seed : Int) :
    NoiseArgs w :=
  ⟨x * terrain_scale, z * terrain_scale, 6, 1 / 2, 2, 1024, 1024, seed⟩

/-- `WorldGenerator._get_road_height` (lines 390-404): smoothed 2-octave
noise at one fifth of the terrain scale, mapped to `[0, 1]` and scaled to
20% of the maximum terrain height. -/
def get_road_height (noise : NoiseArgs w → w) (seed : Int) (x z : w) : w :=
  let base_height :=
    noise ⟨x * terrain_scale * (1 / 5), z * terrain_scale * (1 / 5),
      2, 1 / 2, 2, 1024, 1024, seed⟩
  (base_height + 1) * (1 / 2) * (terrain_height_max : w) * (1 / 5)

/-- `WorldGenerator.get_terrain_height` (lines 47-66): base Perlin terrain
height in `[0, terrain_height]`, blended towards the road-bed height when
the road factor is below `1`. -/
def get_terrain_height (sq : w → w) (noise : NoiseArgs w → w) (seed : Int)
    (roads : List (List (P2 w))) (x z : w) : w :=
  let base_height := noise (terrain_noise_args x z seed)
  let terrain_h := (base_height + 1) * (1 / 2) * (terrain_height_max : w)
  let road_factor := get_road_factor sq roads x z
  if road_factor < 1 then
    terrain_h * road_factor + get_road_height noise seed x z * (1 - road_factor)
  else terrain_h

/-- Access `heightmap[z][x]` of a row-major heightmap; chunk generation only
uses indices inside the grid, out-of-range indices default to `0`. -/
def hm_get (hm : List (List w)) (r c : Nat) : w := (hm.getD r []).getD c 0

/-- `WorldGenerator._calculate_normal` (lines 157-196): central-difference
normal on the heightmap grid with edge clamping, normalized with vertical
component `2 / length`. -/
def calculate_normal (sq : w → w) (heightmap : List (List w))
    (x z resolution : Nat) : Vec3 w :=
  let x_prev := if x = 0 then x else x - 1
  let x_next := if x = resolution then x else x + 1
  let z_prev := if z = 0 then z else z - 1
  let z_next := if z = resolution then z else z + 1
  let h_up := hm_get heightmap z_prev x
  let h_down := hm_get heightmap z_next x
  let h_left := hm_get heightmap z x_prev
  let h_right := hm_get heightmap z x_next
  let nx := h_left - h_right
  let nz := h_up - h_down
  let length := sq (nx * nx + 4 + nz * nz)
  ⟨nx / length, 2 / length, nz / length⟩

/-- A concrete stand-in for `math.sqrt` on the rationals, adequate for the
comparisons the game code makes: it is non-negative, maps `0` to `0`, and
satisfies `sqrt q < 2` exactly when `q < 4` on non-negative inputs. -/
def sqrtModel : ℚ → ℚ := fun q => if q < 4 then (if q ≤ 0 then 0 else 1) else 2

/-- A concrete stand-in for `noise.pnoise2` distinguishing the 6-octave
terrain call from the 2-octave road-bed call. -/
def noiseCex : NoiseArgs ℚ → ℚ := fun a => if a.octaves = 6 then 1 else 0

/-- A one-segment road network through the origin, used as concrete input. -/
def roads0 : List (List (P2 ℚ)) := [[⟨0, 0⟩, ⟨10, 0⟩]]

/-- Auxiliary: a vector `(a, 2, b)` scaled by the inverse of its Euclidean
norm `sqrt (a * a + 4 + b * b)` is a unit vector with positive second
component. -/
lemma unit_normal_aux (a b : ℝ) :
    (a / Real.sqrt (a * a + 4 + b * b)) ^ 2 +
      (2 / Real.sqrt (a * a + 4 + b * b)) ^ 2 +
      (b / Real.sqrt (a * a + 4 + b * b)) ^ 2 = 1 ∧
      0 < 2 / Real.sqrt (a * a + 4 + b * b) := by
  have harg : (0 : ℝ) < a * a + 4 + b * b := by
    nlinarith [mul_self_nonneg a, mul_self_nonneg b]
  have hL : 0 < Real.sqrt (a * a + 4 + b * b) := Real.sqrt_pos.mpr harg
  have hL2 : Real.sqrt (a * a + 4 + b * b) ^ 2 = a * a + 4 + b * b :=
    Real.sq_sqrt harg.le
  constructor
  · field_simp
    linarith [hL2]
  · exact div_pos two_pos hL

/-- C6: for every heightmap and every vertex index, the normal returned by
`_calculate_normal` (computed by central difference with edge clamping, the
clamping being the four boundary branches of the definition) is a unit
vector with strictly positive vertical component, when the square root is
the real square root. -/
theorem C6_calculate_normal_unit (heightmap : List (List ℝ))
    (x z resolution : Nat) :
    (calculate_normal Real.sqrt heightmap x z resolution).x ^ 2 +
      (calculate_normal Real.sqrt heightmap x z resolution).y ^ 2 +
      (calculate_normal Real.sqrt heightmap x z resolution).z ^ 2 = 1 ∧
      0 < (calculate_normal Real.sqrt heightmap x z resolution).y := by
  unfold calculate_normal
  dsimp only
  exact ⟨(unit_normal_aux _ _).1, (unit_normal_aux _ _).2⟩

/-- C4 (amended): let `d` be the distance to the nearest road segment at
`(x, z)` as computed by the generator.  If every segment distance exceeds
`road_width` (15), `get_terrain_height` returns the unblended noise terrain
height, which lies in `[0, terrain_height]` whenever the noise sample lies
in `[-1, 1]`.  If `0 < d < road_width`, the result equals the blend with
factor `d / road_width` and lies strictly between the road-bed height and
the unblended terrain height provided those two differ.  If `d = 0`, the
result equals the road-bed height exactly (which refutes the original
strictly-between reading). -/
theorem C4_terrain_height_blend (sq : ℚ → ℚ) (noise : NoiseArgs ℚ → ℚ)
    (seed : Int) (roads : List (List (P2 ℚ))) (x z : ℚ)
    (hbase1 : -1 ≤ noise (terrain_noise_args x z seed))
    (hbase2 : noise (terrain_noise_args x z seed) ≤ 1) :
    ((∀ d ∈ segment_distances sq roads x z, (15 : ℚ) < d) →
      get_terrain_height sq noise seed roads x z =
          (noise (terrain_noise_args x z seed) + 1) * (1 / 2) * 100 ∧
        0 ≤ get_terrain_height sq noise seed roads x z ∧
        get_terrain_height sq noise seed roads x z ≤ 100) ∧
    (∀ d : ℚ, (segment_distances sq roads x z).min? = some d → 0 < d →
      d < 15 →
      get_terrain_height sq noise seed roads x z =
          (noise (terrain_noise_args x z seed) + 1) * (1 / 2) * 100 * (d / 15)
            + get_road_height noise seed x z * (1 - d / 15) ∧
        (get_road_height noise seed x z ≠
            (noise (terrain_noise_args x z seed) + 1) * (1 / 2) * 100 →
          min (get_road_height noise seed x z)
              ((noise (terrain_noise_args x z seed) + 1) * (1 / 2) * 100) <
            get_terrain_height sq noise seed roads x z ∧
          get_terrain_height sq noise seed roads x z <
            max (get_road_height noise seed x z)
              ((noise (terrain_noise_args x z seed) + 1) * (1 / 2) * 100))) ∧
    ((segment_distances sq roads x z).min? = some 0 →
      get_terrain_height sq noise seed roads x z =
        get_road_height noise seed x z) := by
  set n := noise (terrain_noise_args x z seed) with hn
  refine ⟨?_, ?_, ?_⟩
  · intro hfar
    have hgf : get_road_factor sq roads x z = 1 := by
      unfold get_road_factor
      cases hmin : (segment_distances sq roads x z).min? with
      | none => rfl
      | some m =>
          have hmem := List.min?_mem (fun a b => min_choice a b) hmin
          have h15 := hfar m hmem
          simp only [road_width]
          rw [if_pos (by exact_mod_cast h15)]
    unfold get_terrain_height
    rw [hgf]
    simp only [terrain_height_max, ← hn]
    rw [if_neg (by norm_num)]
    refine ⟨by norm_num, by nlinarith, by nlinarith⟩
  · intro d hmin hd0 hd15
    have hgf : get_road_factor sq roads x z = d / 15 := by
      unfold get_road_factor
      rw [hmin]
      simp only [road_width]
      rw [if_neg (by push_cast; linarith)]
      norm_num
    have hf0 : (0 : ℚ) < d / 15 := by positivity
    have hf1 : d / 15 < 1 := by
      rw [div_lt_one (by norm_num)]; exact hd15
    unfold get_terrain_height
    rw [hgf]
    simp only [terrain_height_max, ← hn]
    rw [if_pos (by linarith)]
    refine ⟨by ring, ?_⟩
    intro hne
    set rh := get_road_height noise seed x z with hrh
    rcases lt_or_gt_of_ne hne with hlt | hgt
    · rw [min_eq_left hlt.le, max_eq_right hlt.le]
      constructor <;> nlinarith
    · rw [min_eq_right hgt.le, max_eq_left hgt.le]
      constructor <;> nlinarith
  · intro hmin
    have hgf : get_road_factor sq roads x z = 0 := by
      unfold get_road_factor
      rw [hmin]
      simp only [road_width]
      rw [if_neg (by norm_num)]
      norm_num
    unfold get_terrain_height
    rw [hgf]
    rw [if_pos (by norm_num)]
    ring

/-- Witness for C4 at a concrete input: no roads, zero noise; the height at
the origin is the unblended `(0 + 1) * 0.5 * 100 = 50`, inside `[0, 100]`. -/
theorem C4_witness :
    get_terrain_height (fun q : ℚ => q) (fun _ => (0 : ℚ)) 0
        ([] : List (List (P2 ℚ))) 0 0 = 50 ∧
      0 ≤ get_terrain_height (fun q : ℚ => q) (fun _ => (0 : ℚ)) 0
        ([] : List (List (P2 ℚ))) 0 0 ∧
      get_terrain_height (fun q : ℚ => q) (fun _ => (0 : ℚ)) 0
        ([] : List (List (P2 ℚ))) 0 0 ≤ 100 := by
  have h := (C4_terrain_height_blend (fun q : ℚ => q) (fun _ => (0 : ℚ)) 0
    ([] : List (List (P2 ℚ))) 0 0 (by norm_num) (by norm_num)).1
    (by simp [segment_distances])
  exact ⟨by rw [h.1]; norm_num, h.2.1, h.2.2⟩

/-- Counterexample for C4 as stated: at the origin, which lies exactly on a
road segment (distance 0, hence within `road_width`), the returned height
equals the road-bed height 10 and is not strictly between the road-bed
height 10 and the unblended terrain height 100. -/
theorem C4_counterexample :
    (segment_distances sqrtModel roads0 0 0).min? = some 0 ∧
      get_road_height noiseCex 0 0 0 = 10 ∧
      (noiseCex (terrain_noise_args 0 0 0) + 1) * (1 / 2) * 100 = 100 ∧
      get_terrain_height sqrtModel noiseCex 0 roads0 0 0 = 10 ∧
      ¬(10 < get_terrain_height sqrtModel noiseCex 0 roads0 0 0 ∧
          get_terrain_height sqrtModel noiseCex 0 roads0 0 0 < 100) := by
  have hd : point_to_line_distance sqrtModel (0 : ℚ) 0 0 0 10 0 = 0 := by
    norm_num [point_to_line_distance, sqrtModel]
  have hsd : segment_distances sqrtModel roads0 0 0 = [0] := by
    simp [segment_distances, roads0, hd]
  have hmin : (segment_distances sqrtModel roads0 0 0).min? = some 0 := by
    rw [hsd]; rfl
  have hrh : get_road_height noiseCex 0 0 0 = 10 := by
    norm_num [get_road_height, noiseCex, terrain_height_max]
  have hth : (noiseCex (terrain_noise_args 0 0 0) + 1) * (1 / 2) * 100
      = (100 : ℚ) := by
    norm_num [noiseCex, terrain_noise_args]
  have hgf : get_road_factor sqrtModel roads0 0 0 = 0 := by
    unfold get_road_factor
    rw [hmin]
    norm_num [road_width]
  have hght : get_terrain_height sqrtModel noiseCex 0 roads0 0 0 = 10 := by
    unfold get_terrain_height
    rw [hgf, if_pos (by norm_num : (0 : ℚ) < 1), hrh]
    ring
  refine ⟨hmin, hrh, hth, hght, ?_⟩
  rw [hght]
  norm_num

/-- C9: `_point_to_line_distance` is total, returns a non-negative value
whenever the square-root function is non-negative on non-negative inputs
(as `math.sqrt` is), and when the two segment endpoints coincide it returns
the point-to-point distance computed through the zero-length guard instead
of dividing by zero.  Totality holds by construction: the function is.
-/
theorem C9_point_to_line_distance_safe (sq : ℚ → ℚ)
    (hs : ∀ q : ℚ, 0 ≤ q → 0 ≤ sq q) (x z x1 z1 x2 z2 : ℚ) :
    0 ≤ point_to_line_distance sq x z x1 z1 x2 z2 ∧
      (x1 = x2 → z1 = z2 →
        point_to_line_distance sq x z x1 z1 x2 z2 =
          sq ((x - x1) * (x - x1) + (z - z1) * (z - z1))) := by
  constructor
  · unfold point_to_line_distance
    dsimp only
    split_ifs
    · exact hs _ (add_nonneg (mul_self_nonneg _) (mul_self_nonneg _))
    · exact hs _ (add_nonneg (mul_self_nonneg _) (mul_self_nonneg _))
    · exact hs _ (add_nonneg (sq_nonneg _) (sq_nonneg _))
    · exact hs _ (add_nonneg (sq_nonneg _) (sq_nonneg _))
  · intro h1 h2
    subst h1; subst h2
    unfold point_to_line_distance
    dsimp only
    rw [if_pos (by ring)]

/-- Witness for C9 at a concrete input: the query point `(3, 4)` against the
degenerate segment from `(0, 0)` to `(0, 0)`, with the identity as the
square-root model (it is non-negative on non-negative inputs). -/
theorem C9_witness :
    0 ≤ point_to_line_distance (fun q : ℚ => q) 3 4 0 0 0 0 ∧
      point_to_line_distance (fun q : ℚ => q) 3 4 0 0 0 0 = 25 := by
  have h := C9_point_to_line_distance_safe (fun q : ℚ => q)
    (fun q hq => hq) 3 4 0 0 0 0
  refine ⟨h.1, ?_⟩
  rw [h.2 rfl rfl]
  norm_num

/-- The fields of `Player` (player.py) that the state claims are about:
identity/profile data, live kinematic state, lap bookkeeping and liveness
timestamp.  The connection handle is owned by the gateway model and the
player id is the key under which the record is stored. -/
structure PData where
  name : String
  vehicle_type : String
  position : Vec3 ℚ
  rotation : Vec3 ℚ
  velocity : Vec3 ℚ
  last_update : ℚ
  best_lap_time : Option ℚ
  current_lap_start : Option ℚ
  deriving DecidableEq, Repr

/-- `Player.update_lap_time` (player.py lines 83-96): when a lap was in
progress, close it, keep the smaller of the old and new lap times as the
best, and start a new lap; otherwise just start timing. -/
def update_lap_time (p : PData) (current_time : ℚ) : PData :=
  match p.current_lap_start with
  | some lap_start =>
      let lap_time := current_time - lap_start
      let best :=
        match p.best_lap_time with
        | none => some lap_time
        | some b => if lap_time < b then some lap_time else some b
      { p with best_lap_time := best, current_lap_start := some current_time }
  | none => { p with current_lap_start := some current_time }

/-- The completed-lap durations produced by a sequence of crossing times:
consecutive differences. -/
def lap_steps : ℚ → List ℚ → List ℚ
  | _, [] => []
  | prev, t :: rest => (t - prev) :: lap_steps t rest

/-- All completed-lap durations of a crossing-time sequence (the first
crossing only starts the clock). -/
def lap_durations : List ℚ → List ℚ
  | [] => []
  | t :: rest => lap_steps t rest

/-- One step of the running-best computation, mirroring the branch of
`update_lap_time`. -/
def merge_best (b0 : Option ℚ) (d : ℚ) : Option ℚ :=
  match b0 with
  | none => some d
  | some b => if d < b then some d else some b

/-- The running best over a list of lap durations. -/
def fold_min (b0 : Option ℚ) (l : List ℚ) : Option ℚ := l.foldl merge_best b0

/-- Order on optional lap times where `none` counts as plus infinity. -/
def opt_le (a b : Option ℚ) : Prop :=
  ∀ x, b = some x → ∃ y, a = some y ∧ y ≤ x

lemma merge_best_some (b d : ℚ) : merge_best (some b) d = some (min b d) := by
  show (if d < b then some d else some b) = some (min b d)
  split_ifs with h
  · rw [min_eq_right h.le]
  · rw [min_eq_left (le_of_not_lt h)]

lemma fold_min_some (l : List ℚ) (b : ℚ) :
    fold_min (some b) l = some (l.foldl min b) := by
  induction l generalizing b with
  | nil => rfl
  | cons d l ih =>
      show fold_min (merge_best (some b) d) l = _
      rw [merge_best_some, ih]
      rfl

lemma fold_min_none (l : List ℚ) : fold_min none l = l.min? := by
  cases l with
  | nil => rfl
  | cons x xs =>
      show fold_min (merge_best none x) xs = _
      rw [show merge_best none x = some x from rfl, fold_min_some,
        List.min?_cons']

lemma foldl_update_lap_time_started (rest : List ℚ) :
    ∀ (prev : ℚ) (p : PData), p.current_lap_start = some prev →
      (rest.foldl update_lap_time p).best_lap_time =
        fold_min p.best_lap_time (lap_steps prev rest) := by
  induction rest with
  | nil => intro prev p _; rfl
  | cons t rest ih =>
      intro prev p hs
      have hstep : update_lap_time p t =
          { p with best_lap_time := merge_best p.best_lap_time (t - prev),
                   current_lap_start := some t } := by
        unfold update_lap_time
        rw [hs]
        cases p.best_lap_time <;> rfl
      rw [List.foldl_cons, hstep, ih t _ rfl]
      rfl

lemma update_lap_time_opt_le (p : PData) (t : ℚ) :
    opt_le (update_lap_time p t).best_lap_time p.best_lap_time := by
  intro x hx
  cases hs : p.current_lap_start with
  | none =>
      refine ⟨x, ?_, le_refl x⟩
      unfold update_lap_time
      rw [hs]
      exact hx
  | some s =>
      unfold update_lap_time
      rw [hs, hx]
      dsimp only
      by_cases hlt : t - s < x
      · rw [if_pos hlt]
        exact ⟨t - s, rfl, hlt.le⟩
      · rw [if_neg hlt]
        exact ⟨x, rfl, le_refl x⟩

lemma foldl_update_lap_time_opt_le (l : List ℚ) :
    ∀ p : PData, opt_le (l.foldl update_lap_time p).best_lap_time
      p.best_lap_time := by
  induction l with
  | nil => intro p x hx; exact ⟨x, hx, le_refl x⟩
  | cons t rest ih =>
      intro p x hx
      obtain ⟨y, hy, hyx⟩ := update_lap_time_opt_le p t x hx
      obtain ⟨z, hz, hzy⟩ := ih (update_lap_time p t) y hy
      exact ⟨z, by simpa using hz, hzy.trans hyx⟩

lemma lap_steps_nonneg (rest : List ℚ) :
    ∀ prev : ℚ, (prev :: rest).Sorted (· ≤ ·) →
      ∀ d ∈ lap_steps prev rest, 0 ≤ d := by
  induction rest with
  | nil => intro prev _ d hd; simp [lap_steps] at hd
  | cons t rest ih =>
      intro prev hsorted d hd
      rw [List.sorted_cons] at hsorted
      have hd2 : d = t - prev ∨ d ∈ lap_steps t rest := by
        simpa [lap_steps] using hd
      rcases hd2 with rfl | hd2
      · exact sub_nonneg.mpr (hsorted.1 t (by simp))
      · exact ih t hsorted.2 d hd2

/-- C10: for every player with no lap in progress and every non-decreasing
sequence of start/finish crossings, the resulting `best_lap_time` equals
the minimum completed-lap duration (and is `none` while fewer than two
crossings happened); along the sequence it never increases, and once
non-`none` it stays non-`none` (content of `opt_le`); each single
`update_lap_time` call either leaves the best unchanged or replaces it by
the just-completed, strictly smaller lap duration; and all completed-lap
durations are non-negative. -/
theorem C10_best_lap_time_monotone (p0 : PData) (ts : List ℚ)
    (h0b : p0.best_lap_time = none) (h0s : p0.current_lap_start = none)
    (hsorted : ts.Sorted (· ≤ ·)) :
    (ts.foldl update_lap_time p0).best_lap_time = (lap_durations ts).min? ∧
    (∀ n : Nat, opt_le (ts.foldl update_lap_time p0).best_lap_time
        ((ts.take n).foldl update_lap_time p0).best_lap_time) ∧
    (∀ (p : PData) (t : ℚ),
      (update_lap_time p t).best_lap_time = p.best_lap_time ∨
      ∃ s, p.current_lap_start = some s ∧
        (update_lap_time p t).best_lap_time = some (t - s) ∧
        ∀ b, p.best_lap_time = some b → t - s < b) ∧
    (∀ d ∈ lap_durations ts, 0 ≤ d) := by
  refine ⟨?_, ?_, ?_, ?_⟩
  · cases ts with
    | nil => simpa [lap_durations] using h0b
    | cons t rest =>
        have hfirst : update_lap_time p0 t =
            { p0 with current_lap_start := some t } := by
          unfold update_lap_time
          rw [h0s]
        rw [List.foldl_cons, hfirst,
          foldl_update_lap_time_started rest t _ rfl]
        simp [lap_durations, h0b, fold_min_none]
  · intro n
    conv_lhs => rw [← List.take_append_drop n ts]
    rw [List.foldl_append]
    exact foldl_update_lap_time_opt_le _ _
  · intro p t
    cases hs : p.current_lap_start with
    | none =>
        left
        unfold update_lap_time
        rw [hs]
    | some s =>
        cases hb : p.best_lap_time with
        | none =>
            right
            refine ⟨s, rfl, ?_, ?_⟩
            · unfold update_lap_time
              rw [hs, hb]
            · intro b hbb
              exact absurd hbb (by simp)
        | some b =>
            by_cases hlt : t - s < b
            · right
              refine ⟨s, rfl, ?_, ?_⟩
              · unfold update_lap_time
                rw [hs, hb]
                simp [hlt]
              · intro b' hb'
                obtain rfl := Option.some.inj hb'
                exact hlt
            · left
              unfold update_lap_time
              rw [hs, hb]
              simp [hlt]
  · cases ts with
    | nil => intro d hd; simp [lap_durations] at hd
    | cons t rest =>
        intro d hd
        exact lap_steps_nonneg rest t hsorted d hd

/-- A concrete player record fresh out of `Player.__init__`: no best lap,
no lap in progress. -/
def pdat0 : PData :=
  ⟨"Player 1", "default", ⟨0, 0, 0⟩, ⟨0, 0, 0⟩, ⟨0, 0, 0⟩, 0, none, none⟩

/-- Witness for C10 at the concrete crossing sequence `[0, 3, 5]`: the two
completed laps last 3 and 2, and the resulting best lap time is 2. -/
theorem C10_witness :
    (([0, 3, 5] : List ℚ).foldl update_lap_time pdat0).best_lap_time =
      some 2 := by
  have h := (C10_best_lap_time_monotone pdat0 [0, 3, 5] rfl rfl
    (by norm_num)).1
  rw [h]
  show ([3 - 0, 5 - 3] : List ℚ).min? = some 2
  rw [List.min?_cons']
  norm_num

/-- A game event, the collision dicts appended by
`GameState._process_events`. -/
structure Event where
  etype : String
  time : ℚ
  players : List String
  position : Vec3 ℚ
  deriving DecidableEq, Repr

/-- The coordinator state of `GameState` (game_state.py): player map (an
association list keyed by player id, in insertion order like a Python
dict), clocks, tick counter, world seed and the append-only event log. -/
structure GState where
  players : List (String × PData)
  start_time : ℚ
  current_time : ℚ
  tick_count : Nat
  world_seed : Int
  events : List Event
  deriving DecidableEq, Repr

/-- `config["playerTimeout"]` (game_state.py line 31). -/
def player_timeout : ℚ := 30

/-- An outbound server-to-client message of app.py. -/
inductive Msg where
  | initMsg (playerId : String) (worldSeed : Int)
  | playerJoined (playerId playerName vehicleType : String)
      (pos rot : Vec3 ℚ)
  | playerPosition (playerId : String) (pos rot vel : Vec3 ℚ)
  | chat (playerId playerName text : String)
  | pong (timestamp : ℚ)
  | playerLeft (playerId : String)
  deriving DecidableEq, Repr

/-- `GameState.remove_player` (lines 72-76): delete the key from the player
map when present (deleting all entries of a key equals Python's guarded
`del`, since dict keys are unique). -/
def remove_player (gs : GState) (player_id : String) : GState :=
  { gs with players := gs.players.filter (fun q => q.1 ≠ player_id) }

/-- `GameState._cleanup_inactive_players` (lines 95-105): collect the ids
whose `last_update` is older than `current_time - playerTimeout`, then
remove each. -/
def cleanup_inactive_players (gs : GState) : GState :=
  let inactive_threshold := gs.current_time - player_timeout
  let inactive_players :=
    (gs.players.filter
      (fun q => q.2.last_update < inactive_threshold)).map Prod.fst
  inactive_players.foldl remove_player gs

/-- The midpoint position recorded in a collision event. -/
def mid_point (p1 p2 : Vec3 ℚ) : Vec3 ℚ :=
  ⟨(p1.x + p2.x) / 2, (p1.y + p2.y) / 2, (p1.z + p2.z) / 2⟩

/-- The body of the double loop of `GameState._process_events` (lines
112-137) for one ordered pair of player entries: an event exactly when the
ids differ and the Euclidean distance is below `2.0`. -/
def collision_check (sq : ℚ → ℚ) (now : ℚ) (a b : String × PData) :
    List Event :=
  if a.1 ≠ b.1 then
    let p1 := a.2.position
    let p2 := b.2.position
    let distance :=
      sq ((p1.x - p2.x) ^ 2 + (p1.y - p2.y) ^ 2 + (p1.z - p2.z) ^ 2)
    if distance < 2 then [⟨"collision", now, [a.1, b.1], mid_point p1 p2⟩]
    else []
  else []

/-- All collision events appended by one `_process_events` call, in the
iteration order of the double loop over the player map. -/
def collision_events (sq : ℚ → ℚ) (now : ℚ)
    (ps : List (String × PData)) : List Event :=
  ps.flatMap fun a => ps.flatMap fun b => collision_check sq now a b

/-- `GameState._process_events` (lines 107-140): append the collision
events of the current player map to the event log. -/
def process_events (sq : ℚ → ℚ) (gs : GState) : GState :=
  { gs with events :=
      gs.events ++ collision_events sq gs.current_time gs.players }

/-- `GameState.update` (lines 39-53), with `time.time()` passed in as the
tick time `now`: advance clock and tick counter, evict inactive players,
process events.  The second component is the list of notification
obligations this call hands to the gateway for delivery; the source emits
none (`game_loop` in app.py lines 149-158 only calls `update`). -/
def update (sq : ℚ → ℚ) (gs : GState) (now : ℚ) :
    GState × List (String × Msg) :=
  let gs1 := { gs with current_time := now, tick_count := gs.tick_count + 1 }
  let gs2 := cleanup_inactive_players gs1
  let gs3 := process_events sq gs2
  (gs3, [])

lemma remove_player_lookup_self (gs : GState) (pid : String) :
    (remove_player gs pid).players.lookup pid = none := by
  unfold remove_player
  dsimp only
  rw [List.lookup_eq_none_iff]
  intro p hp
  have h2 : p.1 ≠ pid := by simpa using List.of_mem_filter hp
  exact bne_iff_ne.mpr h2.symm

lemma remove_player_lookup_none (gs : GState) (pid q : String)
    (h : gs.players.lookup pid = none) :
    (remove_player gs q).players.lookup pid = none := by
  unfold remove_player
  dsimp only
  rw [List.lookup_eq_none_iff] at h ⊢
  intro p hp
  exact h p (List.mem_of_mem_filter hp)

lemma foldl_remove_player_lookup_none (ids : List String) :
    ∀ (gs : GState) (pid : String), gs.players.lookup pid = none →
      (ids.foldl remove_player gs).players.lookup pid = none := by
  induction ids with
  | nil => intro gs pid h; exact h
  | cons i ids ih =>
      intro gs pid h
      exact ih _ _ (remove_player_lookup_none gs pid i h)

lemma foldl_remove_player_lookup_mem (ids : List String) :
    ∀ (gs : GState) (pid : String), pid ∈ ids →
      (ids.foldl remove_player gs).players.lookup pid = none := by
  induction ids with
  | nil => intro gs pid h; simp at h
  | cons i ids ih =>
      intro gs pid h
      rcases List.mem_cons.mp h with rfl | h
      · exact foldl_remove_player_lookup_none ids _ _
          (remove_player_lookup_self gs pid)
      · exact ih _ _ h

lemma lookup_some_mem {l : List (String × PData)} {k : String} {v : PData}
    (h : l.lookup k = some v) : (k, v) ∈ l := by
  obtain ⟨l1, l2, rfl, -⟩ := List.lookup_eq_some_iff.mp h
  simp

/-- C2 (amended): a player whose `last_update` is more than
`playerTimeout = 30` seconds older than the tick time is no longer in the
player map after the next `update` call; however, the call emits no
notification obligation at all to the gateway (in particular not the
`playerLeft` message the original claim requires), because eviction only
logs and the game loop never broadcasts. -/
theorem C2_timeout_eviction (sq : ℚ → ℚ) (gs : GState) (now : ℚ)
    (pid : String) (p : PData) (hp : gs.players.lookup pid = some p)
    (hstale : p.last_update < now - 30) :
    (update sq gs now).1.players.lookup pid = none ∧
      (update sq gs now).2 = [] := by
  refine ⟨?_, rfl⟩
  show (process_events sq (cleanup_inactive_players
    { gs with current_time := now,
              tick_count := gs.tick_count + 1 })).players.lookup pid = none
  unfold process_events
  dsimp only
  unfold cleanup_inactive_players
  dsimp only
  apply foldl_remove_player_lookup_mem
  have hmem : (pid, p) ∈ gs.players := lookup_some_mem hp
  have hfil : (pid, p) ∈ gs.players.filter
      (fun q => q.2.last_update < now - player_timeout) := by
    apply List.mem_filter_of_mem hmem
    simpa [player_timeout] using hstale
  exact List.mem_map_of_mem Prod.fst hfil

/-- Concrete stale state for the C2 record: one player whose last update
was at time 0. -/
def gsC2 : GState :=
  ⟨[("p1", pdat0)], 0, 0, 0, 0, []⟩

/-- Witness for C2 at a concrete input: at tick time 100, the player whose
last update was at 0 is evicted and no gateway message is emitted. -/
theorem C2_witness :
    (update (fun q : ℚ => q) gsC2 100).1.players.lookup "p1" = none ∧
      (update (fun q : ℚ => q) gsC2 100).2 = [] :=
  C2_timeout_eviction (fun q : ℚ => q) gsC2 100 "p1" pdat0 rfl
    (by norm_num [pdat0])

/-- Counterexample for C2 as stated: in the same concrete situation the
number of `playerLeft` notifications emitted for the evicted player by the
`update` call is 0, not exactly one. -/
theorem C2_counterexample :
    (update (fun q : ℚ => q) gsC2 100).1.players.lookup "p1" = none ∧
      ((update (fun q : ℚ => q) gsC2 100).2.countP
          (fun m => m.2 == Msg.playerLeft "p1")) = 0 ∧
      ¬ ((update (fun q : ℚ => q) gsC2 100).2.countP
          (fun m => m.2 == Msg.playerLeft "p1")) = 1 := by
  refine ⟨?_, rfl, by simp [update]⟩
  have hp : gsC2.players.lookup "p1" = some pdat0 := rfl
  show (process_events (fun q : ℚ => q) (cleanup_inactive_players
    { gsC2 with current_time := 100,
                tick_count := gsC2.tick_count + 1 })).players.lookup "p1"
      = none
  unfold process_events
  dsimp only
  unfold cleanup_inactive_players
  dsimp only
  apply foldl_remove_player_lookup_mem
  refine List.mem_map.mpr ⟨("p1", pdat0), List.mem_filter_of_mem ?_ ?_, rfl⟩
  · simp [gsC2]
  · simp only [pdat0, player_timeout, decide_eq_true_eq]
    norm_num

/-- The squared Euclidean distance between two positions (the sum of
squares whose square root `_process_events` compares against `2.0`). -/
def dist_sq (p1 p2 : Vec3 ℚ) : ℚ :=
  (p1.x - p2.x) ^ 2 + (p1.y - p2.y) ^ 2 + (p1.z - p2.z) ^ 2

/-- The collision event recorded for the ordered pair `(a, b)` of player
ids with records `pa`, `pb`. -/
def collision_event (now : ℚ) (a b : String) (pa pb : PData) : Event :=
  ⟨"collision", now, [a, b], mid_point pa.position pb.position⟩

lemma collision_check_eq (sq : ℚ → ℚ) (now : ℚ) (a b : String × PData) :
    collision_check sq now a b =
      if a.1 ≠ b.1 then
        if sq (dist_sq a.2.position b.2.position) < 2 then
          [collision_event now a.1 b.1 a.2 b.2]
        else []
      else [] := rfl

lemma collision_check_mem (sq : ℚ → ℚ) (now : ℚ) (u v : String × PData)
    (e : Event) (he : e ∈ collision_check sq now u v) :
    e = collision_event now u.1 v.1 u.2 v.2 ∧ u.1 ≠ v.1 ∧
      sq (dist_sq u.2.position v.2.position) < 2 := by
  rw [collision_check_eq] at he
  split_ifs at he with h1 h2
  · exact ⟨List.mem_singleton.mp he, h1, h2⟩
  · simp at he
  · simp at he

lemma count_flatMap_events {β : Type} (l : List β) (f : β → List Event)
    (e : Event) :
    (l.flatMap f).count e = (l.map (fun x => (f x).count e)).sum := by
  induction l with
  | nil => rfl
  | cons x l ih => simp [List.flatMap_cons, List.count_append, ih]

lemma sum_map_ite_count {β : Type} (l : List β) (g : β → Nat)
    (p : β → Prop) [DecidablePred p]
    (h : ∀ x ∈ l, g x = if p x then 1 else 0) :
    (l.map g).sum = l.countP (fun x => decide (p x)) := by
  induction l with
  | nil => rfl
  | cons x l ih =>
      rw [List.map_cons, List.sum_cons,
        ih (fun y hy => h y (List.mem_cons_of_mem x hy)),
        h x (List.mem_cons_self x l)]
      by_cases hp : p x
      · rw [if_pos hp, List.countP_cons_of_pos _ _ (by simpa using hp)]
        omega
      · rw [if_neg hp, List.countP_cons_of_neg _ _ (by simpa using hp)]
        omega

lemma key_unique (ps : List (String × PData))
    (hnd : (ps.map Prod.fst).Nodup) {k : String} {v v' : PData}
    (h1 : (k, v) ∈ ps) (h2 : (k, v') ∈ ps) : v = v' := by
  induction ps with
  | nil => simp at h1
  | cons a ps ih =>
      rw [List.map_cons, List.nodup_cons] at hnd
      rcases List.mem_cons.mp h1 with h1' | h1' <;>
        rcases List.mem_cons.mp h2 with h2' | h2'
      · have h3 : (k, v') = (k, v) := h2'.trans h1'.symm
        injection h3 with _ hv
        exact hv.symm
      · exfalso
        apply hnd.1
        rw [← h1']
        have hmm := List.mem_map_of_mem Prod.fst h2'
        exact hmm
      · exfalso
        apply hnd.1
        rw [← h2']
        have hmm := List.mem_map_of_mem Prod.fst h1'
        exact hmm
      · exact ih hnd.2 h1' h2'

lemma countP_key_eq_one (ps : List (String × PData)) (k : String) (v : PData)
    (hnd : (ps.map Prod.fst).Nodup) (hmem : (k, v) ∈ ps) :
    ps.countP (fun q => decide (q.1 = k)) = 1 := by
  induction ps with
  | nil => simp at hmem
  | cons a ps ih =>
      rw [List.map_cons, List.nodup_cons] at hnd
      rcases List.mem_cons.mp hmem with rfl | hmem2
      · rw [List.countP_cons_of_pos _ _ (by simp)]
        have hz : ps.countP (fun q => decide (q.1 = k)) = 0 := by
          rw [List.countP_eq_zero]
          intro q hq
          simp only [decide_eq_true_eq]
          intro hqk
          have hmm : q.1 ∈ ps.map Prod.fst := List.mem_map_of_mem Prod.fst hq
          rw [hqk] at hmm
          exact hnd.1 hmm
        rw [hz]
      · by_cases hak : a.1 = k
        · exact absurd (hak ▸ List.mem_map_of_mem Prod.fst hmem2) hnd.1
        · rw [List.countP_cons_of_neg _ _ (by simpa using hak)]
          exact ih hnd.2 hmem2

lemma dist_sq_comm (p q : Vec3 ℚ) : dist_sq p q = dist_sq q p := by
  unfold dist_sq; ring

lemma dist_sq_nonneg (p q : Vec3 ℚ) : 0 ≤ dist_sq p q := by
  unfold dist_sq; positivity

lemma collision_events_count_close (sq : ℚ → ℚ) (now : ℚ)
    (ps : List (String × PData)) (a b : String) (pa pb : PData)
    (hsq : ∀ q : ℚ, 0 ≤ q → (sq q < 2 ↔ q < 4))
    (hnd : (ps.map Prod.fst).Nodup)
    (ha : (a, pa) ∈ ps) (hb : (b, pb) ∈ ps) (hab : a ≠ b)
    (hclose : dist_sq pa.position pb.position < 4) :
    (collision_events sq now ps).count (collision_event now a b pa pb)
      = 1 := by
  rw [collision_events, count_flatMap_events]
  have hinner : ∀ ap ∈ ps,
      ((ps.flatMap fun bp => collision_check sq now ap bp).count
        (collision_event now a b pa pb)) = if ap.1 = a then 1 else 0 := by
    intro ap hap
    by_cases hk : ap.1 = a
    · rw [if_pos hk]
      have hap2 : ap = (a, pa) := by
        have hm1 : (ap.1, ap.2) ∈ ps := by simpa using hap
        rw [hk] at hm1
        have hv := key_unique ps hnd hm1 ha
        calc ap = (ap.1, ap.2) := rfl
          _ = (a, pa) := by rw [hk, hv]
      rw [hap2]
      rw [count_flatMap_events]
      have hinner2 : ∀ bp ∈ ps,
          ((collision_check sq now (a, pa) bp).count
            (collision_event now a b pa pb)) =
            if bp.1 = b then 1 else 0 := by
        intro bp hbp
        by_cases hkb : bp.1 = b
        · rw [if_pos hkb]
          have hbp2 : bp = (b, pb) := by
            have hm1 : (bp.1, bp.2) ∈ ps := by simpa using hbp
            rw [hkb] at hm1
            have hv := key_unique ps hnd hm1 hb
            calc bp = (bp.1, bp.2) := rfl
              _ = (b, pb) := by rw [hkb, hv]
          rw [hbp2]
          rw [collision_check_eq]
          rw [if_pos (show (a, pa).1 ≠ (b, pb).1 from hab)]
          rw [if_pos ((hsq _ (dist_sq_nonneg _ _)).mpr hclose)]
          exact List.count_singleton_self _
        · rw [if_neg hkb, List.count_eq_zero]
          intro hmem
          have hfact := (collision_check_mem sq now _ _ _ hmem).1
          have : ([a, b] : List String) = [a, bp.1] :=
            congrArg Event.players hfact
          exact hkb (by simpa using this.symm)
      rw [sum_map_ite_count ps _ (fun bp => bp.1 = b) hinner2]
      exact countP_key_eq_one ps b pb hnd hb
    · rw [if_neg hk, List.count_eq_zero]
      intro hmem
      rw [List.mem_flatMap] at hmem
      obtain ⟨bp, hbp, hein⟩ := hmem
      have hfact := (collision_check_mem sq now _ _ _ hein).1
      have hpl : ([a, b] : List String) = [ap.1, bp.1] :=
        congrArg Event.players hfact
      have hAB : a = ap.1 ∧ b = bp.1 := by simpa using hpl
      exact hk hAB.1.symm
  rw [sum_map_ite_count ps _ (fun ap => ap.1 = a) hinner]
  exact countP_key_eq_one ps a pa hnd ha

lemma collision_events_not_mem_far (sq : ℚ → ℚ) (now : ℚ)
    (ps : List (String × PData)) (a b : String) (pa pb : PData)
    (hsq : ∀ q : ℚ, 0 ≤ q → (sq q < 2 ↔ q < 4))
    (hnd : (ps.map Prod.fst).Nodup)
    (ha : (a, pa) ∈ ps) (hb : (b, pb) ∈ ps)
    (hfar : 4 ≤ dist_sq pa.position pb.position) :
    collision_event now a b pa pb ∉ collision_events sq now ps := by
  intro hmem
  rw [collision_events, List.mem_flatMap] at hmem
  obtain ⟨ap, hap, hmem2⟩ := hmem
  rw [List.mem_flatMap] at hmem2
  obtain ⟨bp, hbp, hein⟩ := hmem2
  obtain ⟨hfact, hne, hlt⟩ := collision_check_mem sq now _ _ _ hein
  have hpl : ([a, b] : List String) = [ap.1, bp.1] :=
    congrArg Event.players hfact
  have hAB : a = ap.1 ∧ b = bp.1 := by simpa using hpl
  have hap2 : ap = (a, pa) := by
    have hm1 : (ap.1, ap.2) ∈ ps := by simpa using hap
    rw [← hAB.1] at hm1
    have hv := key_unique ps hnd hm1 ha
    calc ap = (ap.1, ap.2) := rfl
      _ = (a, pa) := by rw [← hAB.1, hv]
  have hbp2 : bp = (b, pb) := by
    have hm1 : (bp.1, bp.2) ∈ ps := by simpa using hbp
    rw [← hAB.2] at hm1
    have hv := key_unique ps hnd hm1 hb
    calc bp = (bp.1, bp.2) := rfl
      _ = (b, pb) := by rw [← hAB.2, hv]
  rw [hap2, hbp2] at hlt
  exact absurd ((hsq _ (dist_sq_nonneg _ _)).mp hlt) (not_lt.mpr hfar)

/-- C3: `_process_events` appends to the event log, for every ordered pair
of distinct players at squared distance below 4 (Euclidean distance below
2.0), exactly one collision event carrying the tick time, the two ids in
that order and the midpoint of the two positions — so the unordered pair
yields one event per ordering, with no deduplication — and appends no
event for a pair at squared distance 4 or more.  The square-root
hypothesis states that the modelled `math.sqrt` compares against `2.0`
exactly as the real square root does. -/
theorem C3_collision_events_per_ordering (sq : ℚ → ℚ) (now : ℚ)
    (ps : List (String × PData)) (a b : String) (pa pb : PData)
    (hsq : ∀ q : ℚ, 0 ≤ q → (sq q < 2 ↔ q < 4))
    (hnd : (ps.map Prod.fst).Nodup)
    (ha : (a, pa) ∈ ps) (hb : (b, pb) ∈ ps) (hab : a ≠ b) :
    (∀ gs : GState, gs.players = ps → gs.current_time = now →
      (process_events sq gs).events =
        gs.events ++ collision_events sq now ps) ∧
    (dist_sq pa.position pb.position < 4 →
      (collision_events sq now ps).count (collision_event now a b pa pb)
          = 1 ∧
        (collision_events sq now ps).count (collision_event now b a pb pa)
          = 1) ∧
    (4 ≤ dist_sq pa.position pb.position →
      collision_event now a b pa pb ∉ collision_events sq now ps) := by
  refine ⟨?_, ?_, ?_⟩
  · intro gs h1 h2
    unfold process_events
    rw [h1, h2]
  · intro hclose
    refine ⟨collision_events_count_close sq now ps a b pa pb hsq hnd
      ha hb hab hclose, ?_⟩
    exact collision_events_count_close sq now ps b a pb pa hsq hnd
      hb ha hab.symm (by rwa [dist_sq_comm])
  · intro hfar
    exact collision_events_not_mem_far sq now ps a b pa pb hsq hnd ha hb hfar

lemma sqrtModel_lt_two_iff (q : ℚ) (_hq : 0 ≤ q) :
    (sqrtModel q < 2 ↔ q < 4) := by
  unfold sqrtModel
  split_ifs with h1 h2
  · exact ⟨fun _ => h1, fun _ => by norm_num⟩
  · exact ⟨fun _ => h1, fun _ => by norm_num⟩
  · constructor
    · intro h; norm_num at h
    · intro h; exact absurd h h1

/-- Player record at the origin. -/
def pdA : PData := pdat0

/-- Player record one unit along the x axis. -/
def pdB : PData := { pdat0 with position := ⟨1, 0, 0⟩ }

/-- A concrete two-player map at distance 1. -/
def psC3 : List (String × PData) := [("a", pdA), ("b", pdB)]

/-- Witness for C3 at a concrete input: two players one unit apart yield
exactly one collision event for each of the two orderings. -/
theorem C3_witness :
    (collision_events sqrtModel 7 psC3).count
        (collision_event 7 "a" "b" pdA pdB) = 1 ∧
      (collision_events sqrtModel 7 psC3).count
        (collision_event 7 "b" "a" pdB pdA) = 1 := by
  have h := (C3_collision_events_per_ordering sqrtModel 7 psC3 "a" "b"
    pdA pdB sqrtModel_lt_two_iff
    (by simp [psC3])
    (by simp [psC3]) (by simp [psC3]) (by simp)).2.1
  exact h (by norm_num [dist_sq, pdA, pdB, pdat0])

/-- A scenery object of `_generate_objects`: kind ("tree"/"building"),
subtype (tree or building type), position, rotation about the vertical
axis, scale. -/
structure Obj (w : Type) where
  otype : String
  subtype : String
  position : Vec3 w
  rotation_y : w
  scale : w
  deriving DecidableEq, Repr

/-- The tree loop of `WorldGenerator._generate_objects` (lines 214-239):
draw a position; skip it (without redrawing) when its road factor is below
`0.9`; otherwise draw type, scale and rotation and append the tree. -/
def tree_loop (sq : w → w) (noise : NoiseArgs w → w)
    (stream : Int → Nat → Nat) (seed : Int) (roads : List (List (P2 w)))
    (world_x world_z : w) :
    Nat → RState → List (Obj w) → RState × List (Obj w)
  | 0, rng, objs => (rng, objs)
  | n + 1, rng, objs =>
      let r1 := (rand_random stream rng : w × RState)
      let r2 := (rand_random stream r1.2 : w × RState)
      let x_pos := world_x + r1.1 * (chunk_size : w)
      let z_pos := world_z + r2.1 * (chunk_size : w)
      if get_road_factor sq roads x_pos z_pos < 9 / 10 then
        tree_loop sq noise stream seed roads world_x world_z n r2.2 objs
      else
        let height := get_terrain_height sq noise seed roads x_pos z_pos
        let tt := rand_choice stream r2.2 ["pine", "oak", "palm"]
        let r3 := (rand_random stream tt.2 : w × RState)
        let tree_scale := 4 / 5 + r3.1 * (2 / 5)
        let r4 := (rand_random stream r3.2 : w × RState)
        tree_loop sq noise stream seed roads world_x world_z n r4.2
          (objs ++
            [⟨"tree", tt.1, ⟨x_pos, height, z_pos⟩, r4.1 * 360, tree_scale⟩])

/-- The building loop of `_generate_objects` (lines 242-268): draw a
position; skip it (without redrawing) unless its road factor lies in
`[0.5, 0.9]`; otherwise draw type, scale and a grid-aligned rotation
`randint(0, 3) * 90` and append the building. -/
def building_loop (sq : w → w) (noise : NoiseArgs w → w)
    (stream : Int → Nat → Nat) (seed : Int) (roads : List (List (P2 w)))
    (world_x world_z : w) :
    Nat → RState → List (Obj w) → RState × List (Obj w)
  | 0, rng, objs => (rng, objs)
  | n + 1, rng, objs =>
      let r1 := (rand_random stream rng : w × RState)
      let r2 := (rand_random stream r1.2 : w × RState)
      let x_pos := world_x + r1.1 * (chunk_size : w)
      let z_pos := world_z + r2.1 * (chunk_size : w)
      let road_factor := get_road_factor sq roads x_pos z_pos
      if road_factor < 1 / 2 ∨ road_factor > 9 / 10 then
        building_loop sq noise stream seed roads world_x world_z n r2.2 objs
      else
        let height := get_terrain_height sq noise seed roads x_pos z_pos
        let bt := rand_choice stream r2.2 ["house", "shop", "garage"]
        let r3 := (rand_random stream bt.2 : w × RState)
        let building_scale := 1 + r3.1 * (1 / 2)
        let rr := rand_randint stream r3.2 0 3
        building_loop sq noise stream seed roads world_x world_z n rr.2
          (objs ++ [⟨"building", bt.1, ⟨x_pos, height, z_pos⟩,
            ((rr.1 : Nat) : w) * 90, building_scale⟩])

/-- `WorldGenerator._generate_objects` (lines 198-270): a fresh generator
seeded with `seed + hash((chunk_x, chunk_z))`, a tree count drawn from
`[5, 20]` and a building count from `[0, 2]`, then the tree and building
placement loops.  The heightmap parameter is received but unused, as in
the source (heights come from `get_terrain_height`). -/
def generate_objects (sq : w → w) (noise : NoiseArgs w → w)
    (stream : Int → Nat → Nat) (hash2 : Int → Int → Int) (seed : Int)
    (roads : List (List (P2 w))) (chunk_x chunk_z : Int)
    (_heightmap : List (List w)) : List (Obj w) :=
  let world_x : w := (chunk_x : w) * (chunk_size : w)
  let world_z : w := (chunk_z : w) * (chunk_size : w)
  let rng0 : RState := ⟨seed + hash2 chunk_x chunk_z, 0⟩
  let num_trees := rand_randint stream rng0 5 20
  let num_buildings := rand_randint stream num_trees.2 0 2
  let tr := tree_loop sq noise stream seed roads world_x world_z
    num_trees.1 num_buildings.2 []
  let br := building_loop sq noise stream seed roads world_x world_z
    num_buildings.1 tr.1 tr.2
  br.2

lemma rand_randint_le (stream : Int → Nat → Nat) (st : RState) (a b : Nat)
    (h : a ≤ b) : (rand_randint stream st a b).1 ≤ b := by
  unfold rand_randint
  dsimp only
  have := Nat.mod_lt (stream st.rseed st.idx)
    (show 0 < b - a + 1 by omega)
  omega

lemma filter_append_one {α : Type} (p : α → Bool) (objs : List α)
    (x : α) :
    ((objs ++ [x]).filter p).length ≤ (objs.filter p).length + 1 := by
  rw [List.filter_append, List.length_append]
  cases hp : p x <;> simp [List.filter, hp]

lemma tree_loop_filter_le (sq : ℚ → ℚ) (noise : NoiseArgs ℚ → ℚ)
    (stream : Int → Nat → Nat) (seed : Int) (roads : List (List (P2 ℚ)))
    (wx wz : ℚ) (p : Obj ℚ → Bool) :
    ∀ (n : Nat) (st : RState) (objs : List (Obj ℚ)),
      ((tree_loop sq noise stream seed roads wx wz n st objs).2.filter
        p).length ≤ (objs.filter p).length + n := by
  intro n
  induction n with
  | zero => intro st objs; simp [tree_loop]
  | succ n ih =>
      intro st objs
      rw [tree_loop]
      dsimp only
      split_ifs with h
      · exact (ih _ objs).trans (by omega)
      · refine le_trans (ih _ _) ?_
        have hx := filter_append_one p objs
        exact le_trans (Nat.add_le_add_right (hx _) n) (by omega)

lemma building_loop_filter_le (sq : ℚ → ℚ) (noise : NoiseArgs ℚ → ℚ)
    (stream : Int → Nat → Nat) (seed : Int) (roads : List (List (P2 ℚ)))
    (wx wz : ℚ) (p : Obj ℚ → Bool) :
    ∀ (n : Nat) (st : RState) (objs : List (Obj ℚ)),
      ((building_loop sq noise stream seed roads wx wz n st objs).2.filter
        p).length ≤ (objs.filter p).length + n := by
  intro n
  induction n with
  | zero => intro st objs; simp [building_loop]
  | succ n ih =>
      intro st objs
      rw [building_loop]
      dsimp only
      split_ifs with h
      · exact (ih _ objs).trans (by omega)
      · refine le_trans (ih _ _) ?_
        have hx := filter_append_one p objs
        exact le_trans (Nat.add_le_add_right (hx _) n) (by omega)

lemma tree_loop_filter_building (sq : ℚ → ℚ) (noise : NoiseArgs ℚ → ℚ)
    (stream : Int → Nat → Nat) (seed : Int) (roads : List (List (P2 ℚ)))
    (wx wz : ℚ) :
    ∀ (n : Nat) (st : RState) (objs : List (Obj ℚ)),
      (tree_loop sq noise stream seed roads wx wz n st objs).2.filter
          (fun o => o.otype == "building") =
        objs.filter (fun o => o.otype == "building") := by
  intro n
  induction n with
  | zero => intro st objs; simp [tree_loop]
  | succ n ih =>
      intro st objs
      rw [tree_loop]
      dsimp only
      split_ifs with h
      · exact ih _ objs
      · rw [ih]
        rw [List.filter_append]
        simp

lemma building_loop_filter_tree (sq : ℚ → ℚ) (noise : NoiseArgs ℚ → ℚ)
    (stream : Int → Nat → Nat) (seed : Int) (roads : List (List (P2 ℚ)))
    (wx wz : ℚ) :
    ∀ (n : Nat) (st : RState) (objs : List (Obj ℚ)),
      (building_loop sq noise stream seed roads wx wz n st objs).2.filter
          (fun o => o.otype == "tree") =
        objs.filter (fun o => o.otype == "tree") := by
  intro n
  induction n with
  | zero => intro st objs; simp [building_loop]
  | succ n ih =>
      intro st objs
      rw [building_loop]
      dsimp only
      split_ifs with h
      · exact ih _ objs
      · rw [ih]
        rw [List.filter_append]
        simp

lemma tree_loop_mem (sq : ℚ → ℚ) (noise : NoiseArgs ℚ → ℚ)
    (stream : Int → Nat → Nat) (seed : Int) (roads : List (List (P2 ℚ)))
    (wx wz : ℚ) :
    ∀ (n : Nat) (st : RState) (objs : List (Obj ℚ)) (o : Obj ℚ),
      o ∈ (tree_loop sq noise stream seed roads wx wz n st objs).2 →
      o ∈ objs ∨ (o.otype = "tree" ∧
        9 / 10 ≤ get_road_factor sq roads o.position.x o.position.z) := by
  intro n
  induction n with
  | zero =>
      intro st objs o ho
      exact Or.inl (by simpa [tree_loop] using ho)
  | succ n ih =>
      intro st objs o ho
      rw [tree_loop] at ho
      dsimp only at ho
      split_ifs at ho with h
      · exact ih _ objs o ho
      · rcases ih _ _ o ho with hin | hp
        · rcases List.mem_append.mp hin with hin2 | hin2
          · exact Or.inl hin2
          · right
            obtain rfl := List.mem_singleton.mp hin2
            exact ⟨rfl, le_of_not_lt h⟩
        · exact Or.inr hp

lemma building_loop_mem (sq : ℚ → ℚ) (noise : NoiseArgs ℚ → ℚ)
    (stream : Int → Nat → Nat) (seed : Int) (roads : List (List (P2 ℚ)))
    (wx wz : ℚ) :
    ∀ (n : Nat) (st : RState) (objs : List (Obj ℚ)) (o : Obj ℚ),
      o ∈ (building_loop sq noise stream seed roads wx wz n st objs).2 →
      o ∈ objs ∨ (o.otype = "building" ∧
        1 / 2 ≤ get_road_factor sq roads o.position.x o.position.z ∧
        get_road_factor sq roads o.position.x o.position.z ≤ 9 / 10 ∧
        ∃ k : Nat, k ≤ 3 ∧ o.rotation_y = (k : ℚ) * 90) := by
  intro n
  induction n with
  | zero =>
      intro st objs o ho
      exact Or.inl (by simpa [building_loop] using ho)
  | succ n ih =>
      intro st objs o ho
      rw [building_loop] at ho
      dsimp only at ho
      split_ifs at ho with h
      · exact ih _ objs o ho
      · rcases ih _ _ o ho with hin | hp
        · rcases List.mem_append.mp hin with hin2 | hin2
          · exact Or.inl hin2
          · right
            obtain rfl := List.mem_singleton.mp hin2
            push_neg at h
            refine ⟨rfl, h.1, h.2, ?_⟩
            refine ⟨_, ?_, rfl⟩
            exact rand_randint_le stream _ 0 3 (by norm_num)
        · exact Or.inr hp

/-- C5 (amended): every generated chunk contains at most 20 trees and at
most 2 buildings (the attempted counts are drawn from `[5, 20]` and
`[0, 2]`, but an attempt whose position fails the road-factor test is
skipped without a retry, so fewer — even zero — objects can be placed,
refuting the lower bound 5); every placed tree sits at road factor at
least `0.9`, every placed building at road factor in `[0.5, 0.9]`, and
every building rotation is `k * 90` degrees for some `k ≤ 3`. -/
theorem C5_scenery_placement (sq : ℚ → ℚ) (noise : NoiseArgs ℚ → ℚ)
    (stream : Int → Nat → Nat) (hash2 : Int → Int → Int) (seed : Int)
    (roads : List (List (P2 ℚ))) (chunk_x chunk_z : Int)
    (heightmap : List (List ℚ)) :
    ((generate_objects sq noise stream hash2 seed roads chunk_x chunk_z
        heightmap).filter (fun o => o.otype == "tree")).length ≤ 20 ∧
    ((generate_objects sq noise stream hash2 seed roads chunk_x chunk_z
        heightmap).filter (fun o => o.otype == "building")).length ≤ 2 ∧
    (∀ o ∈ generate_objects sq noise stream hash2 seed roads chunk_x
        chunk_z heightmap,
      (o.otype = "tree" →
        9 / 10 ≤ get_road_factor sq roads o.position.x o.position.z) ∧
      (o.otype = "building" →
        1 / 2 ≤ get_road_factor sq roads o.position.x o.position.z ∧
        get_road_factor sq roads o.position.x o.position.z ≤ 9 / 10 ∧
        ∃ k : Nat, k ≤ 3 ∧ o.rotation_y = (k : ℚ) * 90)) := by
  refine ⟨?_, ?_, ?_⟩
  · unfold generate_objects
    dsimp only
    rw [building_loop_filter_tree]
    refine le_trans (tree_loop_filter_le _ _ _ _ _ _ _ _ _ _ _) ?_
    have hnt := rand_randint_le stream
      ⟨seed + hash2 chunk_x chunk_z, 0⟩ 5 20 (by norm_num)
    simpa using hnt
  · unfold generate_objects
    dsimp only
    refine le_trans (building_loop_filter_le _ _ _ _ _ _ _ _ _ _ _) ?_
    rw [tree_loop_filter_building]
    have hnb := rand_randint_le stream
      (rand_randint stream ⟨seed + hash2 chunk_x chunk_z, 0⟩ 5 20).2 0 2
      (by norm_num)
    simpa using hnb
  · intro o ho
    unfold generate_objects at ho
    dsimp only at ho
    rcases building_loop_mem _ _ _ _ _ _ _ _ _ _ o ho with hin | hbprops
    · rcases tree_loop_mem _ _ _ _ _ _ _ _ _ _ o hin with hin2 | htprops
      · simp at hin2
      · constructor
        · intro _
          exact htprops.2
        · intro hbo
          rw [htprops.1] at hbo
          simp at hbo
    · constructor
      · intro hto
        rw [hbprops.1] at hto
        simp at hto
      · intro _
        exact hbprops.2

/-- The all-zeros stand-in for the Mersenne Twister raw stream. -/
def stream0 : Int → Nat → Nat := fun _ _ => 0

/-- The stand-in for Python's `hash` on an integer pair, at a fixed input. -/
def hash0 : Int → Int → Int := fun _ _ => 0

/-- Witness for C5 at a concrete input (no hypotheses to discharge): the
two count bounds at the all-zero stream and the one-segment road
network. -/
theorem C5_witness :
    ((generate_objects sqrtModel noiseCex stream0 hash0 0 roads0 0 0
        ([] : List (List ℚ))).filter (fun o => o.otype == "tree")).length
        ≤ 20 ∧
      ((generate_objects sqrtModel noiseCex stream0 hash0 0 roads0 0 0
          ([] : List (List ℚ))).filter
        (fun o => o.otype == "building")).length ≤ 2 :=
  ⟨(C5_scenery_placement sqrtModel noiseCex stream0 hash0 0 roads0 0 0
      []).1,
    (C5_scenery_placement sqrtModel noiseCex stream0 hash0 0 roads0 0 0
      []).2.1⟩

lemma road_factor_origin_zero : get_road_factor sqrtModel roads0 0 0 = 0 := by
  have hd : point_to_line_distance sqrtModel (0 : ℚ) 0 0 0 10 0 = 0 := by
    norm_num [point_to_line_distance, sqrtModel]
  have hsd : segment_distances sqrtModel roads0 0 0 = [0] := by
    simp [segment_distances, roads0, hd]
  unfold get_road_factor
  rw [hsd]
  norm_num [road_width]

lemma tree_loop_stream0_snd :
    ∀ (n : Nat) (st : RState) (objs : List (Obj ℚ)),
      (tree_loop sqrtModel noiseCex stream0 0 roads0 0 0 n st objs).2
        = objs := by
  intro n
  induction n with
  | zero => intro st objs; rfl
  | succ n ih =>
      intro st objs
      rw [tree_loop]
      dsimp only [rand_random, stream0]
      have e1 : (0 : ℚ) + (((0 % 2 ^ 53 : Nat) : ℚ) / 2 ^ 53) *
          (chunk_size : ℚ) = 0 := by
        norm_num
      rw [e1, road_factor_origin_zero,
        if_pos (by norm_num : (0 : ℚ) < 9 / 10)]
      exact ih _ objs

/-- Counterexample for C5 as stated: with the all-zero stream every tree
attempt lands at the origin, which lies on a road (road factor 0 below
0.9), so all 5 attempted trees are rejected and the chunk contains 0
trees, below the claimed lower bound of 5. -/
theorem C5_counterexample :
    generate_objects sqrtModel noiseCex stream0 hash0 0 roads0 0 0
        ([] : List (List ℚ)) = [] ∧
      ¬(5 ≤ ((generate_objects sqrtModel noiseCex stream0 hash0 0 roads0 0 0
          ([] : List (List ℚ))).filter
            (fun o => o.otype == "tree")).length) := by
  have hmain : generate_objects sqrtModel noiseCex stream0 hash0 0 roads0 0 0
      ([] : List (List ℚ)) = [] := by
    unfold generate_objects
    dsimp only
    have hwx : ((0 : Int) : ℚ) * (chunk_size : ℚ) = 0 := by norm_num
    rw [hwx]
    have hnb : (rand_randint stream0
        (rand_randint stream0 ⟨0 + hash0 0 0, 0⟩ 5 20).2 0 2).1 = 0 := by
      simp [rand_randint, stream0]
    rw [hnb]
    rw [building_loop]
    exact tree_loop_stream0_snd _ _ _
  refine ⟨hmain, ?_⟩
  rw [hmain]
  simp

/-- An inbound application message of app.py, after JSON parsing: the
`type`-tagged union handled by the `websocket_endpoint` loop.  Fields of a
`position` message may be absent (`message.get` falls back to the current
value). -/
inductive CMsg where
  | position (pos rot vel : Option (Vec3 ℚ))
  | chat (text : String)
  | ping (timestamp : ℚ)
  | unknown (t : String)
  deriving DecidableEq, Repr

/-- One transport event observed by the connection loop: a received
frame (`none` when `json.loads` fails on it, which raises and is caught by
the generic `except Exception` handler) or a transport disconnect
(`WebSocketDisconnect`). -/
inductive InEv where
  | msg (m : Option CMsg)
  | disconnect
  deriving DecidableEq, Repr

/-- `broadcast_message` (app.py lines 140-147): send to every connection
whose id differs from `exclude` (`none` means no exclusion, as Python's
`player_id != None` is always true).  Delivery is modelled as the list of
(recipient id, message) pairs. -/
def broadcast_message (conns : List String) (m : Msg)
    (exclude : Option String) : List (String × Msg) :=
  conns.filterMap fun player_id =>
    if some player_id ≠ exclude then some (player_id, m) else none

/-- The mutation a `position` message applies to the player object
(app.py lines 91-94): overwrite position/rotation/velocity when present,
keep the prior value otherwise, and refresh the liveness timestamp to the
coordinator's current time. -/
def position_update (player : PData) (now : ℚ)
    (pos rot vel : Option (Vec3 ℚ)) : PData :=
  { player with
    position := pos.getD player.position,
    rotation := rot.getD player.rotation,
    velocity := vel.getD player.velocity,
    last_update := now }

/-- One step of `websocket_endpoint` (app.py lines 82-138) after the
handshake, for the connected player `pid` whose session-local `Player`
object is `player` (the same object is referenced by the connection table
and the coordinator's player map; the model returns the updated object and
writes it through to the map entry).  Cases: a parsed message dispatched
on its `type` tag (unknown types ignored), an unparseable frame (the
generic exception handler: remove from both tables when still connected,
no broadcast), and a transport disconnect (remove from both tables and
broadcast `playerLeft` to the remaining connections).  The `pid` guards
mirror Python's truthiness test `if player_id:` (an empty id skips
teardown). -/
def websocket_handle (conns : List String) (gs : GState) (pid : String)
    (player : PData) (ev : InEv) :
    List String × GState × PData × List (String × Msg) :=
  match ev with
  | InEv.msg (some (CMsg.position pos rot vel)) =>
      let player2 := position_update player gs.current_time pos rot vel
      let newPlayers := gs.players.map fun q =>
        if q.1 = pid then (q.1, player2) else q
      let gs2 := { gs with players := newPlayers }
      (conns, gs2, player2,
        broadcast_message conns
          (Msg.playerPosition pid player2.position player2.rotation
            player2.velocity) (some pid))
  | InEv.msg (some (CMsg.chat text)) =>
      (conns, gs, player,
        broadcast_message conns (Msg.chat pid player.name text) none)
  | InEv.msg (some (CMsg.ping ts)) =>
      (conns, gs, player, [(pid, Msg.pong ts)])
  | InEv.msg (some (CMsg.unknown _)) => (conns, gs, player, [])
  | InEv.msg none =>
      if pid ≠ "" ∧ pid ∈ conns then
        (conns.filter (fun c => c ≠ pid), remove_player gs pid, player, [])
      else (conns, gs, player, [])
  | InEv.disconnect =>
      if pid ≠ "" then
        let conns2 := conns.filter (fun c => c ≠ pid)
        let gs2 := remove_player gs pid
        (conns2, gs2, player,
          broadcast_message conns2 (Msg.playerLeft pid) none)
      else (conns, gs, player, [])

lemma broadcast_message_eq (conns : List String) (m : Msg)
    (exclude : Option String) :
    broadcast_message conns m exclude =
      (conns.filter (fun c => decide (some c ≠ exclude))).map
        (fun c => (c, m)) := by
  unfold broadcast_message
  induction conns with
  | nil => rfl
  | cons c conns ih =>
      simp only [List.filterMap_cons, List.filter_cons]
      by_cases hc : some c ≠ exclude
      · rw [if_pos hc, if_pos (by simpa using hc)]
        dsimp only
        rw [List.map_cons]
        exact congrArg (List.cons (c, m)) ih
      · rw [if_neg hc, if_neg (by simpa using hc)]
        exact ih

lemma broadcast_message_none (conns : List String) (m : Msg) :
    broadcast_message conns m none = conns.map (fun c => (c, m)) := by
  rw [broadcast_message_eq]
  congr 1
  apply List.filter_eq_self.mpr
  intro c _
  simp

lemma broadcast_message_some (conns : List String) (m : Msg) (e : String) :
    broadcast_message conns m (some e) =
      (conns.filter (fun c => c ≠ e)).map (fun c => (c, m)) := by
  rw [broadcast_message_eq]
  congr 1
  apply List.filter_congr
  intro c _
  simp

lemma count_map_pair (l : List String) (m : Msg) (q : String) :
    (l.map (fun c => (c, m))).count (q, m) = l.count q := by
  induction l with
  | nil => rfl
  | cons c l ih =>
      rw [List.map_cons, List.count_cons, List.count_cons, ih]
      congr 1
      by_cases hc : c = q
      · subst hc; simp
      · simp [hc]

/-- C7 (amended): on a transport disconnect of a connected player with a
non-empty id, the gateway removes the player from the connection table and
the coordinator's player map and broadcasts `playerLeft` exactly once to
every remaining connection and never to the leaver; on a malformed
(unparseable) inbound message the player is likewise removed from both
tables, but no `playerLeft` broadcast happens at all — the malformed case
does not behave exactly as a disconnect. -/
theorem C7_teardown (conns : List String) (gs : GState) (pid : String)
    (player : PData) (hne : pid ≠ "") (hin : pid ∈ conns)
    (hnd : conns.Nodup) :
    (pid ∉ (websocket_handle conns gs pid player InEv.disconnect).1) ∧
    ((websocket_handle conns gs pid player
        InEv.disconnect).2.1.players.lookup pid = none) ∧
    (∀ q ∈ conns, q ≠ pid →
      ((websocket_handle conns gs pid player InEv.disconnect).2.2.2.count
        (q, Msg.playerLeft pid)) = 1) ∧
    (∀ m : Msg, (pid, m) ∉
      (websocket_handle conns gs pid player InEv.disconnect).2.2.2) ∧
    (pid ∉ (websocket_handle conns gs pid player (InEv.msg none)).1) ∧
    ((websocket_handle conns gs pid player
        (InEv.msg none)).2.1.players.lookup pid = none) ∧
    ((websocket_handle conns gs pid player (InEv.msg none)).2.2.2 = []) := by
  have hd : websocket_handle conns gs pid player InEv.disconnect =
      (conns.filter (fun c => c ≠ pid), remove_player gs pid, player,
        broadcast_message (conns.filter (fun c => c ≠ pid))
          (Msg.playerLeft pid) none) := by
    unfold websocket_handle
    dsimp only
    rw [if_pos hne]
  have hm : websocket_handle conns gs pid player (InEv.msg none) =
      (conns.filter (fun c => c ≠ pid), remove_player gs pid, player,
        []) := by
    unfold websocket_handle
    dsimp only
    rw [if_pos ⟨hne, hin⟩]
  refine ⟨?_, ?_, ?_, ?_, ?_, ?_, ?_⟩
  · rw [hd]; simp
  · rw [hd]
    exact remove_player_lookup_self gs pid
  · intro q hq hqpid
    rw [hd]
    dsimp only
    rw [broadcast_message_none, count_map_pair]
    exact List.count_eq_one_of_mem (hnd.filter _)
      (List.mem_filter_of_mem hq (by simpa using hqpid))
  · intro m
    rw [hd]
    dsimp only
    rw [broadcast_message_none]
    intro hmem
    obtain ⟨c, hc, hcm⟩ := List.mem_map.mp hmem
    have : c = pid := congrArg Prod.fst hcm
    subst this
    simpa using List.of_mem_filter hc
  · rw [hm]; simp
  · rw [hm]
    exact remove_player_lookup_self gs pid
  · rw [hm]

/-- Concrete game state with two players for the gateway record. -/
def gsC7 : GState :=
  ⟨[("p", pdat0), ("q", pdat0)], 0, 0, 0, 0, []⟩

/-- Witness for C7 at a concrete input: connections `["p", "q"]`, player
`"p"` disconnects; `"q"` receives `playerLeft` exactly once, `"p"` is gone
from both tables, and a malformed frame from `"p"` broadcasts nothing. -/
theorem C7_witness :
    ("p" ∉ (websocket_handle ["p", "q"] gsC7 "p" pdat0
        InEv.disconnect).1) ∧
      ((websocket_handle ["p", "q"] gsC7 "p" pdat0
        InEv.disconnect).2.2.2.count ("q", Msg.playerLeft "p")) = 1 ∧
      ((websocket_handle ["p", "q"] gsC7 "p" pdat0
        (InEv.msg none)).2.2.2 = []) := by
  have h := C7_teardown ["p", "q"] gsC7 "p" pdat0 (by simp)
    (by simp) (by simp)
  exact ⟨h.1, h.2.2.1 "q" (by simp) (by simp), h.2.2.2.2.2.2⟩

/-- Counterexample for C7 as stated: in the same concrete situation, the
malformed-message teardown does not broadcast `playerLeft` to the
remaining connection `"q"`, so the malformed case does not behave exactly
as a disconnect. -/
theorem C7_counterexample :
    ((websocket_handle ["p", "q"] gsC7 "p" pdat0
        (InEv.msg none)).2.2.2 = []) ∧
      ("q", Msg.playerLeft "p") ∉
        (websocket_handle ["p", "q"] gsC7 "p" pdat0
          (InEv.msg none)).2.2.2 ∧
      ("q", Msg.playerLeft "p") ∈
        (websocket_handle ["p", "q"] gsC7 "p" pdat0
          InEv.disconnect).2.2.2 := by
  have hm : websocket_handle ["p", "q"] gsC7 "p" pdat0 (InEv.msg none) =
      (["p", "q"].filter (fun c => c ≠ "p"), remove_player gsC7 "p",
        pdat0, []) := by
    unfold websocket_handle
    dsimp only
    rw [if_pos ⟨by simp, by simp⟩]
  have hd : websocket_handle ["p", "q"] gsC7 "p" pdat0 InEv.disconnect =
      (["p", "q"].filter (fun c => c ≠ "p"), remove_player gsC7 "p",
        pdat0,
        broadcast_message (["p", "q"].filter (fun c => c ≠ "p"))
          (Msg.playerLeft "p") none) := by
    unfold websocket_handle
    dsimp only
    rw [if_pos (by simp)]
  refine ⟨by rw [hm], by rw [hm]; simp, ?_⟩
  rw [hd]
  dsimp only
  rw [broadcast_message_none]
  simp

lemma lookup_map_update (l : List (String × PData)) (pid : String)
    (v : PData) (v0 : PData) (h : l.lookup pid = some v0) :
    (l.map (fun q => if q.1 = pid then (q.1, v) else q)).lookup pid
      = some v := by
  induction l with
  | nil => simp at h
  | cons a l ih =>
      obtain ⟨k, b⟩ := a
      by_cases hk : k = pid
      · subst hk
        rw [List.map_cons]
        dsimp only
        rw [if_pos rfl]
        exact List.lookup_cons_self
      · have hpk : (pid == k) = false := beq_false_of_ne fun hh => hk hh.symm
        rw [List.map_cons]
        dsimp only
        rw [if_neg hk]
        rw [List.lookup_cons] at h ⊢
        rw [hpk] at h ⊢
        dsimp only at h ⊢
        exact ih h

/-- C8: a `position` message from connected player `pid` replaces the
player object's position, rotation and velocity with the message fields
(each absent field keeps its prior value), refreshes the liveness
timestamp to the coordinator's current time, writes the updated object
through to the player map, and the resulting `playerPosition` broadcast is
delivered exactly once to every other connection and never back to the
sender. -/
theorem C8_position_message_routing (conns : List String) (gs : GState)
    (pid : String) (player : PData) (pos rot vel : Option (Vec3 ℚ))
    (hnd : conns.Nodup) :
    ((position_update player gs.current_time pos rot vel).position =
        pos.getD player.position ∧
      (position_update player gs.current_time pos rot vel).rotation =
        rot.getD player.rotation ∧
      (position_update player gs.current_time pos rot vel).velocity =
        vel.getD player.velocity ∧
      (position_update player gs.current_time pos rot vel).last_update =
        gs.current_time) ∧
    ((websocket_handle conns gs pid player
        (InEv.msg (some (CMsg.position pos rot vel)))).2.2.1 =
      position_update player gs.current_time pos rot vel) ∧
    (∀ v0 : PData, gs.players.lookup pid = some v0 →
      (websocket_handle conns gs pid player
        (InEv.msg (some (CMsg.position pos rot vel)))).2.1.players.lookup
          pid =
        some (position_update player gs.current_time pos rot vel)) ∧
    (∀ m : Msg, (pid, m) ∉
      (websocket_handle conns gs pid player
        (InEv.msg (some (CMsg.position pos rot vel)))).2.2.2) ∧
    (∀ q ∈ conns, q ≠ pid →
      ((websocket_handle conns gs pid player
        (InEv.msg (some (CMsg.position pos rot vel)))).2.2.2.count
        (q, Msg.playerPosition pid
          (position_update player gs.current_time pos rot vel).position
          (position_update player gs.current_time pos rot vel).rotation
          (position_update player gs.current_time pos rot vel).velocity))
        = 1) := by
  refine ⟨⟨rfl, rfl, rfl, rfl⟩, rfl, ?_, ?_, ?_⟩
  · intro v0 h0
    exact lookup_map_update gs.players pid _ v0 h0
  · intro m hmem
    have : (websocket_handle conns gs pid player
        (InEv.msg (some (CMsg.position pos rot vel)))).2.2.2 =
        broadcast_message conns
          (Msg.playerPosition pid
            (position_update player gs.current_time pos rot vel).position
            (position_update player gs.current_time pos rot vel).rotation
            (position_update player gs.current_time pos rot vel).velocity)
          (some pid) := rfl
    rw [this, broadcast_message_some] at hmem
    obtain ⟨c, hc, hcm⟩ := List.mem_map.mp hmem
    have hcpid : c = pid := congrArg Prod.fst hcm
    subst hcpid
    simpa using List.of_mem_filter hc
  · intro q hq hqpid
    have : (websocket_handle conns gs pid player
        (InEv.msg (some (CMsg.position pos rot vel)))).2.2.2 =
        broadcast_message conns
          (Msg.playerPosition pid
            (position_update player gs.current_time pos rot vel).position
            (position_update player gs.current_time pos rot vel).rotation
            (position_update player gs.current_time pos rot vel).velocity)
          (some pid) := rfl
    rw [this, broadcast_message_some, count_map_pair]
    exact List.count_eq_one_of_mem (hnd.filter _)
      (List.mem_filter_of_mem hq (by simpa using hqpid))

/-- Concrete two-player coordinator state at tick time 5. -/
def gsC8 : GState :=
  ⟨[("a", pdat0), ("b", pdat0)], 0, 5, 0, 0, []⟩

/-- Witness for C8 at a concrete input: player `"a"` sends a position-only
message; the record keeps its prior rotation/velocity, its timestamp
becomes 5, the map is updated, `"b"` receives the broadcast exactly once
and `"a"` does not receive its own `playerPosition` message. -/
theorem C8_witness :
    ((websocket_handle ["a", "b"] gsC8 "a" pdat0
        (InEv.msg (some (CMsg.position (some ⟨1, 2, 3⟩) none none)))).2.2.1
      = { pdat0 with position := ⟨1, 2, 3⟩, last_update := 5 }) ∧
    ((websocket_handle ["a", "b"] gsC8 "a" pdat0
        (InEv.msg (some (CMsg.position (some ⟨1, 2, 3⟩) none
          none)))).2.1.players.lookup "a"
      = some { pdat0 with position := ⟨1, 2, 3⟩, last_update := 5 }) ∧
    (("a", Msg.playerPosition "a" ⟨1, 2, 3⟩ pdat0.rotation pdat0.velocity)
      ∉ (websocket_handle ["a", "b"] gsC8 "a" pdat0
        (InEv.msg (some (CMsg.position (some ⟨1, 2, 3⟩) none
          none)))).2.2.2) ∧
    ((websocket_handle ["a", "b"] gsC8 "a" pdat0
        (InEv.msg (some (CMsg.position (some ⟨1, 2, 3⟩) none
          none)))).2.2.2.count
      ("b", Msg.playerPosition "a" ⟨1, 2, 3⟩ pdat0.rotation pdat0.velocity)
      = 1) := by
  have h := C8_position_message_routing ["a", "b"] gsC8 "a" pdat0
    (some ⟨1, 2, 3⟩) none none (by simp)
  have hupd : position_update pdat0 gsC8.current_time (some ⟨1, 2, 3⟩)
      none none = { pdat0 with position := ⟨1, 2, 3⟩, last_update := 5 } :=
    rfl
  refine ⟨?_, ?_, ?_, ?_⟩
  · rw [h.2.1, hupd]
  · have := h.2.2.1 pdat0 rfl
    rw [hupd] at this
    exact this
  · have := h.2.2.2.1 (Msg.playerPosition "a" ⟨1, 2, 3⟩ pdat0.rotation
      pdat0.velocity)
    exact this
  · have := h.2.2.2.2 "b" (by simp) (by simp)
    rw [hupd] at this
    exact this

/-- One iteration of the circle-road loop of
`WorldGenerator._generate_road_network` (lines 286-296): the point on the
circle at segment `i` of 36, jittered by two draws when `0 < i < 36`. -/
def road_circle_step (stream : Int → Nat → Nat) (fcos fsin : w → w)
    (fpi : w) (center_x center_z radius : w)
    (st : RState × List (P2 w)) (i : Nat) : RState × List (P2 w) :=
  let segments : Nat := 36
  let angle := ((i : w) / (segments : w)) * 2 * fpi
  let x := center_x + fcos angle * radius
  let z := center_z + fsin angle * radius
  if 0 < i ∧ i < segments then
    let r1 := (rand_random stream st.1 : w × RState)
    let r2 := (rand_random stream r1.2 : w × RState)
    (r2.2, st.2 ++ [⟨x + (r1.1 - 1 / 2) * radius * (1 / 5),
                     z + (r2.1 - 1 / 2) * radius * (1 / 5)⟩])
  else (st.1, st.2 ++ [⟨x, z⟩])

/-- One intermediate point of a radial road (lines 315-325): the point at
parameter `t = j / num_points` on the segment from the center to the end
point, jittered by two draws scaled by a deviation shrinking towards the
end. -/
def radial_point_step (stream : Int → Nat → Nat)
    (center_x center_z end_x end_z : w) (num_points : Nat)
    (st : RState × List (P2 w)) (j : Nat) : RState × List (P2 w) :=
  let t := (j : w) / (num_points : w)
  let x := center_x + (end_x - center_x) * t
  let z := center_z + (end_z - center_z) * t
  let deviation := (world_size : w) * (1 / 20) * (1 - t)
  let r1 := (rand_random stream st.1 : w × RState)
  let r2 := (rand_random stream r1.2 : w × RState)
  (r2.2, st.2 ++ [⟨x + (r1.1 - 1 / 2) * deviation,
                   z + (r2.1 - 1 / 2) * deviation⟩])

/-- One radial road (lines 302-330): from the world center towards the
world edge at angle `i / num_radial * 2 * pi`, with `randint(3, 6)` points
of which the interior ones are jittered, ending exactly at the end
point. -/
def radial_road_step (stream : Int → Nat → Nat) (fcos fsin : w → w)
    (fpi : w) (center_x center_z : w) (num_radial : Nat)
    (st : RState × List (List (P2 w))) (i : Nat) :
    RState × List (List (P2 w)) :=
  let angle := ((i : w) / (num_radial : w)) * 2 * fpi
  let end_x := center_x + fcos angle * (world_size : w) * (1 / 2)
  let end_z := center_z + fsin angle * (world_size : w) * (1 / 2)
  let np := rand_randint stream st.1 3 6
  let inner := (List.range' 1 (np.1 - 1)).foldl
    (radial_point_step stream center_x center_z end_x end_z np.1)
    (np.2, [⟨center_x, center_z⟩])
  (inner.1, st.2 ++ [inner.2 ++ [⟨end_x, end_z⟩]])

/-- The segment loop of one freeform road (lines 347-360): perturb the
heading, draw a segment length in `[100, 300]`, step from the previous
point and clamp to the world bounds. -/
def random_road_loop (stream : Int → Nat → Nat) (fcos fsin : w → w) :
    Nat → RState → w → P2 w → List (P2 w) → RState × List (P2 w)
  | 0, rng, _, _, acc => (rng, acc)
  | n + 1, rng, angle, prev, acc =>
      let rd := (rand_random stream rng : w × RState)
      let angle2 := angle + (rd.1 - 1 / 2) * (1 / 2)
      let sl := rand_randint stream rd.2 100 300
      let x := prev.x + fcos angle2 * (sl.1 : w)
      let z := prev.z + fsin angle2 * (sl.1 : w)
      let x2 := max 0 (min x (world_size : w))
      let z2 := max 0 (min z (world_size : w))
      random_road_loop stream fcos fsin n sl.2 angle2 ⟨x2, z2⟩
        (acc ++ [⟨x2, z2⟩])

/-- One freeform road (lines 334-362): random start point, a length of
`randint(3, 8)` points, a random initial heading, then the segment
loop. -/
def random_road_outer (stream : Int → Nat → Nat) (fcos fsin : w → w)
    (fpi : w) (st : RState × List (List (P2 w))) (_i : Nat) :
    RState × List (List (P2 w)) :=
  let sx := (rand_random stream st.1 : w × RState)
  let sz := (rand_random stream sx.2 : w × RState)
  let start : P2 w := ⟨sx.1 * (world_size : w), sz.1 * (world_size : w)⟩
  let len := rand_randint stream sz.2 3 8
  let ang := (rand_random stream len.2 : w × RState)
  let angle := ang.1 * 2 * fpi
  let res := random_road_loop stream fcos fsin (len.1 - 1) ang.2 angle
    start [start]
  (res.1, st.2 ++ [res.2])

/-- `WorldGenerator._generate_road_network` (lines 272-364): with a fresh
generator seeded by the world seed alone, one circular road of 36 segments
around the world center, `randint(4, 8)` radial roads, and `randint(5, 10)`
freeform roads, in that draw order. -/
def generate_road_network (stream : Int → Nat → Nat) (fcos fsin : w → w)
    (fpi : w) (seed : Int) : List (List (P2 w)) :=
  let rng0 : RState := ⟨seed, 0⟩
  let radius := (world_size : w) * (3 / 10)
  let center_x := (world_size : w) * (1 / 2)
  let center_z := (world_size : w) * (1 / 2)
  let circle := (List.range (36 + 1)).foldl
    (road_circle_step stream fcos fsin fpi center_x center_z radius)
    (rng0, [])
  let nr := rand_randint stream circle.1 4 8
  let radials := (List.range nr.1).foldl
    (radial_road_step stream fcos fsin fpi center_x center_z nr.1)
    (nr.2, [circle.2])
  let nrand := rand_randint stream radials.1 5 10
  let randoms := (List.range nrand.1).foldl
    (random_road_outer stream fcos fsin fpi) (nrand.2, radials.2)
  randoms.2

/-- One chunk vertex: position, normal and UV coordinates. -/
structure Vertex (w : Type) where
  position : Vec3 w
  normal : Vec3 w
  uv_u : w
  uv_v : w
  deriving DecidableEq, Repr

/-- A road segment stored in a chunk (`{"start": p1, "end": p2}`). -/
structure RoadSeg (w : Type) where
  seg_start : P2 w
  seg_end : P2 w
  deriving DecidableEq, Repr

/-- The chunk dict returned by `WorldGenerator._generate_chunk`. -/
structure Chunk (w : Type) where
  position : P2 w
  size : Nat
  resolution : Nat
  heightmap : List (List w)
  vertices : List (Vertex w)
  indices : List Nat
  roads : List (RoadSeg w)
  objects : List (Obj w)
  deriving DecidableEq, Repr

/-- `WorldGenerator._generate_chunk` (lines 68-155): heightmap on a
17 by 17 grid, vertex data with normals and UVs, two triangles per grid
quad, the road segments meeting the chunk's bounding box, and the scenery
objects. -/
def generate_chunk (sq : w → w) (noise : NoiseArgs w → w)
    (stream : Int → Nat → Nat) (hash2 : Int → Int → Int) (seed : Int)
    (roads : List (List (P2 w))) (chunk_x chunk_z : Int) : Chunk w :=
  let world_x : w := (chunk_x : w) * (chunk_size : w)
  let world_z : w := (chunk_z : w) * (chunk_size : w)
  let resolution : Nat := 16
  let heightmap : List (List w) :=
    (List.range (resolution + 1)).map fun (z : Nat) =>
      (List.range (resolution + 1)).map fun (x : Nat) =>
        get_terrain_height sq noise seed roads
          (world_x + ((x : w) / (resolution : w)) * (chunk_size : w))
          (world_z + ((z : w) / (resolution : w)) * (chunk_size : w))
  let vertices : List (Vertex w) :=
    (List.range (resolution + 1)).flatMap fun (z : Nat) =>
      (List.range (resolution + 1)).map fun (x : Nat) =>
        ⟨⟨world_x + ((x : w) / (resolution : w)) * (chunk_size : w),
          hm_get heightmap z x,
          world_z + ((z : w) / (resolution : w)) * (chunk_size : w)⟩,
         calculate_normal sq heightmap x z resolution,
         (x : w) / (resolution : w), (z : w) / (resolution : w)⟩
  let indices : List Nat :=
    (List.range resolution).flatMap fun (z : Nat) =>
      (List.range resolution).flatMap fun (x : Nat) =>
        let i0 := z * (resolution + 1) + x
        let i1 := z * (resolution + 1) + x + 1
        let i2 := (z + 1) * (resolution + 1) + x
        let i3 := (z + 1) * (resolution + 1) + x + 1
        [i0, i2, i1, i1, i2, i3]
  let chunk_roads : List (RoadSeg w) :=
    roads.flatMap fun road =>
      (road.zip road.tail).filterMap fun pq =>
        let min_x := world_x
        let max_x := world_x + (chunk_size : w)
        let min_z := world_z
        let max_z := world_z + (chunk_size : w)
        if ((min_x ≤ pq.1.x ∧ pq.1.x ≤ max_x) ∨
            (min_x ≤ pq.2.x ∧ pq.2.x ≤ max_x)) ∧
           ((min_z ≤ pq.1.z ∧ pq.1.z ≤ max_z) ∨
            (min_z ≤ pq.2.z ∧ pq.2.z ≤ max_z)) then
          some ⟨pq.1, pq.2⟩
        else none
  let objects := generate_objects sq noise stream hash2 seed roads
    chunk_x chunk_z heightmap
  ⟨⟨world_x, world_z⟩, chunk_size, resolution, heightmap, vertices,
    indices, chunk_roads, objects⟩

/-- The `WorldGenerator` instance state: seed, road network, chunk cache.
The source keys the cache by the string `f"{chunk_x},{chunk_z}"`; as that
encoding is injective on integer pairs, the model keys it by the pair
`(chunk_x, chunk_z)` itself. -/
structure WorldGen (w : Type) where
  seed : Int
  roads : List (List (P2 w))
  chunks : List ((Int × Int) × Chunk w)

/-- `WorldGenerator.__init__` (lines 12-32): store the seed, start with an
empty cache, generate the road network once from the seed. -/
def init_world_gen (stream : Int → Nat → Nat) (fcos fsin : w → w)
    (fpi : w) (seed : Int) : WorldGen w :=
  ⟨seed, generate_road_network stream fcos fsin fpi seed, []⟩

/-- `WorldGenerator.get_chunk` (lines 34-45): return the cached chunk when
present, otherwise generate, cache and return it. -/
def get_chunk (sq : w → w) (noise : NoiseArgs w → w)
    (stream : Int → Nat → Nat) (hash2 : Int → Int → Int)
    (g : WorldGen w) (chunk_x chunk_z : Int) : Chunk w × WorldGen w :=
  match g.chunks.lookup (chunk_x, chunk_z) with
  | some c => (c, g)
  | none =>
      let c := generate_chunk sq noise stream hash2 g.seed g.roads
        chunk_x chunk_z
      (c, { g with chunks := ((chunk_x, chunk_z), c) :: g.chunks })

/-- Serve a sequence of chunk requests, threading the cache. -/
def serve_chunks (sq : w → w) (noise : NoiseArgs w → w)
    (stream : Int → Nat → Nat) (hash2 : Int → Int → Int)
    (g : WorldGen w) (reqs : List (Int × Int)) : WorldGen w :=
  reqs.foldl (fun g2 r => (get_chunk sq noise stream hash2 g2 r.1 r.2).2) g

/-- The cache invariant: the generator carries the given seed and road
network, and every cached chunk equals the pure generation function at its
key. -/
def cache_ok (sq : ℚ → ℚ) (noise : NoiseArgs ℚ → ℚ)
    (stream : Int → Nat → Nat) (hash2 : Int → Int → Int) (seed : Int)
    (roads : List (List (P2 ℚ))) (g : WorldGen ℚ) : Prop :=
  g.seed = seed ∧ g.roads = roads ∧
  ∀ (a b : Int) (c : Chunk ℚ), g.chunks.lookup (a, b) = some c →
    c = generate_chunk sq noise stream hash2 seed roads a b

lemma get_chunk_ok (sq : ℚ → ℚ) (noise : NoiseArgs ℚ → ℚ)
    (stream : Int → Nat → Nat) (hash2 : Int → Int → Int) (seed : Int)
    (roads : List (List (P2 ℚ))) (g : WorldGen ℚ)
    (hg : cache_ok sq noise stream hash2 seed roads g)
    (chunk_x chunk_z : Int) :
    (get_chunk sq noise stream hash2 g chunk_x chunk_z).1 =
        generate_chunk sq noise stream hash2 seed roads chunk_x chunk_z ∧
      cache_ok sq noise stream hash2 seed roads
        (get_chunk sq noise stream hash2 g chunk_x chunk_z).2 := by
  unfold get_chunk
  cases hl : g.chunks.lookup (chunk_x, chunk_z) with
  | some c =>
      dsimp only
      exact ⟨hg.2.2 chunk_x chunk_z c hl, hg⟩
  | none =>
      dsimp only
      constructor
      · rw [hg.1, hg.2.1]
      · refine ⟨hg.1, hg.2.1, ?_⟩
        intro a b c hl2
        rw [List.lookup_cons] at hl2
        by_cases hab : ((a, b) : Int × Int) = (chunk_x, chunk_z)
        · rw [show (((a, b) : Int × Int) == (chunk_x, chunk_z)) = true from
            beq_iff_eq.mpr hab] at hl2
          dsimp only at hl2
          obtain ⟨ha, hb⟩ := Prod.mk.injEq .. ▸ hab
          subst ha
          subst hb
          rw [hg.1, hg.2.1] at hl2
          exact (Option.some.inj hl2).symm
        · rw [show (((a, b) : Int × Int) == (chunk_x, chunk_z)) = false from
            beq_false_of_ne hab] at hl2
          dsimp only at hl2
          exact hg.2.2 a b c hl2

lemma serve_chunks_ok (sq : ℚ → ℚ) (noise : NoiseArgs ℚ → ℚ)
    (stream : Int → Nat → Nat) (hash2 : Int → Int → Int) (seed : Int)
    (roads : List (List (P2 ℚ))) (reqs : List (Int × Int)) :
    ∀ g : WorldGen ℚ, cache_ok sq noise stream hash2 seed roads g →
      cache_ok sq noise stream hash2 seed roads
        (serve_chunks sq noise stream hash2 g reqs) := by
  induction reqs with
  | nil => intro g hg; exact hg
  | cons r reqs ih =>
      intro g hg
      exact ih _ (get_chunk_ok sq noise stream hash2 seed roads g hg
        r.1 r.2).2

/-- C1: for a fixed seed and fixed external functions (noise, sqrt,
trigonometry, the random stream and the tuple hash are all deterministic),
the chunk returned by `get_chunk(cx, cz)` equals the pure function
`generate_chunk` of the seed and the chunk coordinates alone — heightmap,
vertices, indices, roads and objects included — for a generator that has
already served an arbitrary list of requests (hence for any two
`WorldGenerator` instances with the same seed and any request order), and
calling `get_chunk` again on the resulting state returns the identical
chunk (cached idempotence). -/
theorem C1_get_chunk_deterministic (sq : ℚ → ℚ) (noise : NoiseArgs ℚ → ℚ)
    (stream : Int → Nat → Nat) (fcos fsin : ℚ → ℚ) (fpi : ℚ)
    (hash2 : Int → Int → Int) (seed : Int) (reqs : List (Int × Int))
    (chunk_x chunk_z : Int) :
    (get_chunk sq noise stream hash2
        (serve_chunks sq noise stream hash2
          (init_world_gen stream fcos fsin fpi seed) reqs)
        chunk_x chunk_z).1 =
      generate_chunk sq noise stream hash2 seed
        (generate_road_network stream fcos fsin fpi seed)
        chunk_x chunk_z ∧
    (get_chunk sq noise stream hash2
        (get_chunk sq noise stream hash2
          (serve_chunks sq noise stream hash2
            (init_world_gen stream fcos fsin fpi seed) reqs)
          chunk_x chunk_z).2
        chunk_x chunk_z).1 =
      generate_chunk sq noise stream hash2 seed
        (generate_road_network stream fcos fsin fpi seed)
        chunk_x chunk_z := by
  have hinit : cache_ok sq noise stream hash2 seed
      (generate_road_network stream fcos fsin fpi seed)
      (init_world_gen stream fcos fsin fpi seed) := by
    refine ⟨rfl, rfl, ?_⟩
    intro a b c h
    simp [init_world_gen] at h
  have hserved := serve_chunks_ok sq noise stream hash2 seed
    (generate_road_network stream fcos fsin fpi seed) reqs
    (init_world_gen stream fcos fsin fpi seed) hinit
  have h1 := get_chunk_ok sq noise stream hash2 seed
    (generate_road_network stream fcos fsin fpi seed) _ hserved
    chunk_x chunk_z
  have h2 := get_chunk_ok sq noise stream hash2 seed
    (generate_road_network stream fcos fsin fpi seed) _ h1.2
    chunk_x chunk_z
  exact ⟨h1.1, h2.1⟩
